import Mathlib

/-!
Verification of the `UByteStreamPacketParser` framed byte-stream packet
parser (Plugins/ArduinoCommunication, `ByteStreamPacketParser.cpp` /
`ByteStreamPacketParser.h`).

The C++ class is embedded shallowly:
  * bytes are `Nat` values (`uint8` contents are `< 256`; the embedding
    tracks the bound as a hypothesis where a claim needs it),
  * the internal `TArray<uint8> Buffer` is a `List Nat`,
  * the `ParsePackets` while-loop is `parseLoopF`, a fuel-indexed
    structural recursion; every continuing iteration of the C++ loop
    advances `ReadIndex` by at least one, so fuel `Buffer.Num() + 1`
    (used by the `ParsePacketsCore` wrapper) can never run out,
  * the mutable out-parameters of `ParsePackets` are collected in the
    `LoopResult` structure, and the cumulative statistics live in
    `ParserState`.
-/

namespace ByteStream

/-- Start byte marker (0xAA), `UByteStreamPacketParser::StartByte`. -/
def StartByte : Nat := 0xAA

/-- End byte marker (0x55), `UByteStreamPacketParser::EndByte`. -/
def EndByte : Nat := 0x55

/-- Minimum frame size (START + HEADER + CRC + END with LEN = 0). -/
def MinFrameSize : Nat := 9

/-- Minimum bytes needed to read the header (START + 6 header bytes). -/
def MinBytesToReadHeader : Nat := 7

/-- Maximum payload length. -/
def MaxPayloadLen : Nat := 32

/-- Decoded packet, embedding `FBenchPacket` (the `Type` field is renamed
`Typ` because `Type` is reserved in Lean). -/
structure FBenchPacket where
  Ver : Nat
  Src : Nat
  Typ : Nat
  Seq : Nat
  Len : Nat
  Payload : List Nat
deriving Repr, DecidableEq

/-- Parser configuration: the three `UPROPERTY` knobs of the class that the
parsing and eviction logic reads. -/
structure Config where
  MaxBufferBytes : Nat
  TrimToBytes : Nat
  MaxPacketsPerCall : Nat
deriving Repr, DecidableEq

/-- Default values of the configuration properties in the header. -/
def defaultConfig : Config :=
  { MaxBufferBytes := 4096, TrimToBytes := 64, MaxPacketsPerCall := 200 }

/-- Parser state: the internal byte buffer plus the cumulative statistics
counters. -/
structure ParserState where
  Buffer : List Nat
  TotalBytesIn : Nat
  TotalPacketsDecoded : Nat
  TotalBytesDropped : Nat
  TotalBadEndFrames : Nat
  TotalCrcMismatches : Nat
deriving Repr, DecidableEq

/-- State of a freshly constructed parser: empty buffer, zeroed statistics. -/
def initialState : ParserState :=
  { Buffer := [], TotalBytesIn := 0, TotalPacketsDecoded := 0,
    TotalBytesDropped := 0, TotalBadEndFrames := 0, TotalCrcMismatches := 0 }

/-- Result of one `ParsePackets` call: the decoded packets together with the
per-call out-parameters `OutBytesDropped`, `OutBadEndFrames`,
`OutCrcMismatches`, and the buffer contents left behind after compaction. -/
structure LoopResult where
  packets : List FBenchPacket
  bytesDropped : Nat
  badEndFrames : Nat
  crcMismatches : Nat
  buffer : List Nat
deriving Repr, DecidableEq

/-- Scan helper for `FindStartByte`: walk the remaining bytes, returning the
running index of the first `StartByte`. -/
def findStartAux : List Nat → Nat → Option Nat
  | [], _ => none
  | b :: rest, i => if b = StartByte then some i else findStartAux rest (i + 1)

/-- Embeds `UByteStreamPacketParser::FindStartByte`: index of the first
occurrence of `StartByte` at position `≥ i`, or `none`. -/
def FindStartByte (buf : List Nat) (i : Nat) : Option Nat :=
  findStartAux (buf.drop i) i

/-- Embeds `UByteStreamPacketParser::ComputeCrc`: XOR of the bytes at indices
`offset + 1 .. offset + 6 + payloadLen` (the 6 header bytes and the payload);
the caller guarantees those indices are in bounds. -/
def ComputeCrc (buf : List Nat) (offset payloadLen : Nat) : Nat :=
  ((buf.drop (offset + 1)).take (6 + payloadLen)).foldl Nat.xor 0

/-- Embeds `UByteStreamPacketParser::DecodePacketAt`: read the header fields
at `offset + 1 .. offset + 6` and copy `payloadLen` payload bytes starting at
`offset + 7`; `Seq` is the little-endian `uint16` `SEQ_L | SEQ_H << 8`. -/
def DecodePacketAt (buf : List Nat) (offset payloadLen : Nat) : FBenchPacket :=
  { Ver := buf.getD (offset + 1) 0
    Src := buf.getD (offset + 2) 0
    Typ := buf.getD (offset + 3) 0
    Seq := Nat.lor (buf.getD (offset + 4) 0) (Nat.shiftLeft (buf.getD (offset + 5) 0) 8)
    Len := buf.getD (offset + 6) 0
    Payload := (buf.drop (offset + 7)).take payloadLen }

/-- Embeds the `while (PacketsParsed < MaxPacketsPerCall)` loop of
`UByteStreamPacketParser::ParsePackets` together with the final buffer
compaction. Arguments after `buf`: fuel, `ReadIndex`, `PacketsParsed`, the
accumulated `OutPackets`, `OutBytesDropped`, `OutBadEndFrames`,
`OutCrcMismatches`. Every continuing iteration advances `ReadIndex` by at
least one, so with fuel `> buf.length - readIndex` the fuel-exhausted branch
is unreachable. -/
def parseLoopF (maxPackets : Nat) (buf : List Nat) :
    Nat → Nat → Nat → List FBenchPacket → Nat → Nat → Nat → LoopResult
  | 0, readIndex, _, acc, dropped, badEnd, crcMis =>
    ⟨acc, dropped, badEnd, crcMis, buf.drop readIndex⟩
  | fuel + 1, readIndex, packetsParsed, acc, dropped, badEnd, crcMis =>
    if packetsParsed < maxPackets then
      match FindStartByte buf readIndex with
      | none =>
        -- no start byte: all remaining bytes are junk, clear the buffer
        ⟨acc, dropped + (buf.length - readIndex), badEnd, crcMis, []⟩
      | some startIndex =>
        -- junk bytes before the start marker are dropped
        let dropped := dropped + (startIndex - readIndex)
        let bytesRemaining := buf.length - startIndex
        if bytesRemaining < MinBytesToReadHeader then
          ⟨acc, dropped, badEnd, crcMis, buf.drop startIndex⟩
        else
          let payloadLen := buf.getD (startIndex + 6) 0
          if payloadLen > MaxPayloadLen then
            parseLoopF maxPackets buf fuel (startIndex + 1) packetsParsed acc
              (dropped + 1) badEnd crcMis
          else
            let frameSize := MinFrameSize + payloadLen
            if bytesRemaining < frameSize then
              ⟨acc, dropped, badEnd, crcMis, buf.drop startIndex⟩
            else if buf.getD (startIndex + 8 + payloadLen) 0 ≠ EndByte then
              parseLoopF maxPackets buf fuel (startIndex + 1) packetsParsed acc
                (dropped + 1) (badEnd + 1) crcMis
            else if ComputeCrc buf startIndex payloadLen ≠ buf.getD (startIndex + 7 + payloadLen) 0 then
              parseLoopF maxPackets buf fuel (startIndex + 1) packetsParsed acc
                (dropped + 1) badEnd (crcMis + 1)
            else
              parseLoopF maxPackets buf fuel (startIndex + frameSize) (packetsParsed + 1)
                (acc ++ [DecodePacketAt buf startIndex payloadLen]) dropped badEnd crcMis
    else
      ⟨acc, dropped, badEnd, crcMis, buf.drop readIndex⟩

/-- One `ParsePackets` call viewed as a pure function of the buffer. -/
def ParsePacketsCore (maxPackets : Nat) (buf : List Nat) : LoopResult :=
  parseLoopF maxPackets buf (buf.length + 1) 0 0 [] 0 0 0

/-- Embeds `UByteStreamPacketParser::EnforceBufferLimits`: if the buffer
exceeds `MaxBufferBytes`, keep the last `TrimToBytes` bytes when
`0 < TrimToBytes < length`, otherwise clear it; the removed byte count is
added to `TotalBytesDropped` and also returned. -/
def EnforceBufferLimits (cfg : Config) (s : ParserState) : ParserState × Nat :=
  if s.Buffer.length ≤ cfg.MaxBufferBytes then (s, 0)
  else if 0 < cfg.TrimToBytes ∧ cfg.TrimToBytes < s.Buffer.length then
    let bytesToTrim := s.Buffer.length - cfg.TrimToBytes
    ({ s with
        Buffer := s.Buffer.drop bytesToTrim
        TotalBytesDropped := s.TotalBytesDropped + bytesToTrim }, bytesToTrim)
  else
    ({ s with
        Buffer := []
        TotalBytesDropped := s.TotalBytesDropped + s.Buffer.length }, s.Buffer.length)

/-- Embeds `UByteStreamPacketParser::AppendBytes`: empty input is ignored,
otherwise the bytes are appended, `TotalBytesIn` grows, and the buffer limit
is enforced immediately. -/
def AppendBytes (cfg : Config) (s : ParserState) (inBytes : List Nat) : ParserState :=
  if inBytes.length = 0 then s
  else
    (EnforceBufferLimits cfg
      { s with
          TotalBytesIn := s.TotalBytesIn + inBytes.length
          Buffer := s.Buffer ++ inBytes }).1

/-- Embeds `UByteStreamPacketParser::ParsePackets` at the state level: run the
parse loop on the buffer, return the out-parameters, and fold the per-call
counts into the cumulative statistics. -/
def ParsePackets (cfg : Config) (s : ParserState) : LoopResult × ParserState :=
  let r := ParsePacketsCore cfg.MaxPacketsPerCall s.Buffer
  (r,
    { s with
        Buffer := r.buffer
        TotalPacketsDecoded := s.TotalPacketsDecoded + r.packets.length
        TotalBytesDropped := s.TotalBytesDropped + r.bytesDropped
        TotalBadEndFrames := s.TotalBadEndFrames + r.badEndFrames
        TotalCrcMismatches := s.TotalCrcMismatches + r.crcMismatches })

/-- Embeds `UByteStreamPacketParser::ResetBuffer`. -/
def ResetBuffer (s : ParserState) : ParserState :=
  { s with Buffer := [] }

/-- Embeds `UByteStreamPacketParser::GetBufferedByteCount`. -/
def GetBufferedByteCount (s : ParserState) : Nat :=
  s.Buffer.length

/-- Embeds `UByteStreamPacketParser::ResetStatistics`. -/
def ResetStatistics (s : ParserState) : ParserState :=
  { s with
      TotalBytesIn := 0, TotalPacketsDecoded := 0, TotalBytesDropped := 0,
      TotalBadEndFrames := 0, TotalCrcMismatches := 0 }

/-- An externally visible parser call, for stating state invariants over
arbitrary call sequences. -/
inductive ParserOp where
  | append (bytes : List Nat)
  | parse
  | resetBuffer
  | resetStatistics
deriving Repr, DecidableEq

/-- Apply one parser call to the state. -/
def applyOp (cfg : Config) (s : ParserState) : ParserOp → ParserState
  | .append bs => AppendBytes cfg s bs
  | .parse => (ParsePackets cfg s).2
  | .resetBuffer => ResetBuffer s
  | .resetStatistics => ResetStatistics s

/-- Apply a sequence of parser calls from left to right. -/
def runOps (cfg : Config) (s : ParserState) (ops : List ParserOp) : ParserState :=
  ops.foldl (applyOp cfg) s

/-- A frame description: the field values of one wire frame, following the
documented layout `[0xAA][VER][SRC][TYPE][SEQ_L][SEQ_H][LEN][PAYLOAD...][CRC][0x55]`
in `ByteStreamPacketParser.h`. -/
structure FrameSpec where
  Ver : Nat
  Src : Nat
  Typ : Nat
  SeqLo : Nat
  SeqHi : Nat
  Payload : List Nat
deriving Repr, DecidableEq

/-- The correct CRC of a frame: XOR of the 6 header bytes and the payload. -/
def FrameSpec.crc (f : FrameSpec) : Nat :=
  ([f.Ver, f.Src, f.Typ, f.SeqLo, f.SeqHi, f.Payload.length] ++ f.Payload).foldl Nat.xor 0

/-- The wire bytes of a frame, per the documented layout. -/
def FrameSpec.bytes (f : FrameSpec) : List Nat :=
  StartByte :: f.Ver :: f.Src :: f.Typ :: f.SeqLo :: f.SeqHi :: f.Payload.length ::
    (f.Payload ++ [f.crc, EndByte])

/-- The packet the parser is expected to decode from a valid frame. -/
def FrameSpec.packet (f : FrameSpec) : FBenchPacket :=
  { Ver := f.Ver, Src := f.Src, Typ := f.Typ
    Seq := Nat.lor f.SeqLo (Nat.shiftLeft f.SeqHi 8)
    Len := f.Payload.length, Payload := f.Payload }

/-- A frame description is valid when every field fits in a byte and the
payload respects the protocol's length limit. -/
def FrameSpec.Valid (f : FrameSpec) : Prop :=
  f.Ver < 256 ∧ f.Src < 256 ∧ f.Typ < 256 ∧ f.SeqLo < 256 ∧ f.SeqHi < 256 ∧
    f.Payload.length ≤ MaxPayloadLen ∧ ∀ b ∈ f.Payload, b < 256

instance (f : FrameSpec) : Decidable f.Valid := by
  unfold FrameSpec.Valid; infer_instance

/-- Concatenated wire bytes of a list of frames, back to back. -/
def joinFrames (fs : List FrameSpec) : List Nat :=
  (fs.map FrameSpec.bytes).flatten

/-! ### List index helpers -/

theorem getD_add_length (pre x : List Nat) (n d : Nat) :
    (pre ++ x).getD (pre.length + n) d = x.getD n d := by
  rw [List.getD_append_right pre x d (pre.length + n) (Nat.le_add_right _ _)]
  simp

theorem drop_add_length (pre x : List Nat) (n : Nat) :
    (pre ++ x).drop (pre.length + n) = x.drop n := by
  rw [← List.drop_drop, List.drop_left]

theorem getD_drop_add (l : List Nat) (i j d : Nat) :
    (l.drop i).getD j d = l.getD (i + j) d := by
  rw [List.getD_eq_getElem?_getD, List.getD_eq_getElem?_getD, List.getElem?_drop]

theorem drop_cons_getD (l : List Nat) (i : Nat) (h : i < l.length) :
    l.drop i = l.getD i 0 :: l.drop (i + 1) := by
  rw [List.drop_eq_getElem_cons h, List.getD_eq_getElem l 0 h]

theorem getD_lt_of_bytes (l : List Nat) (h : ∀ b ∈ l, b < 256) (i : Nat) :
    l.getD i 0 < 256 := by
  by_cases hi : i < l.length
  · exact h _ (by rw [List.getD_eq_getElem l 0 hi]; exact List.getElem_mem hi)
  · rw [List.getD_eq_default l 0 (Nat.le_of_not_lt hi)]; omega

/-! ### FindStartByte -/

theorem findStartAux_bounds (l : List Nat) :
    ∀ i j, findStartAux l i = some j → i ≤ j ∧ j - i < l.length ∧ l.getD (j - i) 0 = StartByte := by
  induction l with
  | nil => intro i j h; simp [findStartAux] at h
  | cons b rest ih =>
    intro i j h
    by_cases hb : b = StartByte
    · simp [findStartAux, hb] at h
      subst h; simp [hb]
    · simp [findStartAux, hb] at h
      obtain ⟨h1, h2, h3⟩ := ih (i + 1) j h
      refine ⟨by omega, by simp; omega, ?_⟩
      have : j - i = (j - (i + 1)) + 1 := by omega
      rw [this, List.getD_cons_succ]
      exact h3

theorem FindStartByte_of_ge (buf : List Nat) (i : Nat) (h : buf.length ≤ i) :
    FindStartByte buf i = none := by
  unfold FindStartByte
  rw [List.drop_eq_nil_of_le h]
  rfl

theorem findStartAux_cons (b : Nat) (l : List Nat) (i : Nat) :
    findStartAux (b :: l) i = if b = StartByte then some i else findStartAux l (i + 1) := rfl

theorem FindStartByte_self (buf : List Nat) (i : Nat) (h : i < buf.length)
    (hs : buf.getD i 0 = StartByte) : FindStartByte buf i = some i := by
  unfold FindStartByte
  rw [drop_cons_getD buf i h, findStartAux_cons, if_pos hs]

theorem FindStartByte_succ (buf : List Nat) (i : Nat) (h : i < buf.length)
    (hs : buf.getD i 0 ≠ StartByte) : FindStartByte buf i = FindStartByte buf (i + 1) := by
  unfold FindStartByte
  rw [drop_cons_getD buf i h, findStartAux_cons, if_neg hs]

theorem FindStartByte_bounds (buf : List Nat) (i j : Nat)
    (h : FindStartByte buf i = some j) :
    i ≤ j ∧ j < buf.length ∧ buf.getD j 0 = StartByte := by
  unfold FindStartByte at h
  obtain ⟨h1, h2, h3⟩ := findStartAux_bounds (buf.drop i) i j h
  rw [List.length_drop] at h2
  rw [getD_drop_add] at h3
  have hij : i + (j - i) = j := by omega
  rw [hij] at h3
  exact ⟨h1, by omega, h3⟩

theorem FindStartByte_skip (buf : List Nat) :
    ∀ k i, i + k ≤ buf.length → (∀ t, i ≤ t → t < i + k → buf.getD t 0 ≠ StartByte) →
      FindStartByte buf i = FindStartByte buf (i + k) := by
  intro k
  induction k with
  | zero => intro i _ _; rfl
  | succ n ih =>
    intro i hk hno
    have hi : i < buf.length := by omega
    rw [FindStartByte_succ buf i hi (hno i (Nat.le_refl i) (by omega))]
    have := ih (i + 1) (by omega) (fun t ht htl => hno t (by omega) (by omega))
    rw [this]
    have : i + 1 + n = i + (n + 1) := by omega
    rw [this]

theorem findStartAux_none (l : List Nat) (h : ∀ b ∈ l, b ≠ StartByte) :
    ∀ i, findStartAux l i = none := by
  induction l with
  | nil => intro i; rfl
  | cons b rest ih =>
    intro i
    have hb : b ≠ StartByte := h b (List.mem_cons_self b rest)
    simp only [findStartAux, if_neg hb]
    exact ih (fun x hx => h x (List.mem_cons_of_mem b hx)) (i + 1)

theorem FindStartByte_none_of_junk (buf : List Nat) (h : ∀ b ∈ buf, b ≠ StartByte) (i : Nat) :
    FindStartByte buf i = none :=
  findStartAux_none (buf.drop i) (fun x hx => h x (List.drop_subset i buf hx)) i

/-! ### Frame byte layout facts -/

theorem FrameSpec.bytes_eq (f : FrameSpec) :
    f.bytes = [StartByte, f.Ver, f.Src, f.Typ, f.SeqLo, f.SeqHi, f.Payload.length]
      ++ (f.Payload ++ [f.crc, EndByte]) := rfl

theorem FrameSpec.bytes_length (f : FrameSpec) :
    f.bytes.length = MinFrameSize + f.Payload.length := by
  simp [FrameSpec.bytes, MinFrameSize]
  omega

theorem FrameSpec.bytes_getD_zero (f : FrameSpec) : f.bytes.getD 0 0 = StartByte := rfl

theorem FrameSpec.bytes_getD_six (f : FrameSpec) : f.bytes.getD 6 0 = f.Payload.length := rfl

theorem FrameSpec.bytes_getD_end (f : FrameSpec) :
    f.bytes.getD (8 + f.Payload.length) 0 = EndByte := by
  have h0 : 8 + f.Payload.length
      = ([StartByte, f.Ver, f.Src, f.Typ, f.SeqLo, f.SeqHi, f.Payload.length] : List Nat).length
        + (1 + f.Payload.length) := by
    simp only [List.length_cons, List.length_nil]
    omega
  rw [FrameSpec.bytes_eq, h0, getD_add_length]
  rw [List.getD_append_right _ _ 0 _ (by omega)]
  have h2 : 1 + f.Payload.length - f.Payload.length = 1 := by omega
  rw [h2]
  rfl

theorem FrameSpec.bytes_getD_crc (f : FrameSpec) :
    f.bytes.getD (7 + f.Payload.length) 0 = f.crc := by
  have h0 : 7 + f.Payload.length
      = ([StartByte, f.Ver, f.Src, f.Typ, f.SeqLo, f.SeqHi, f.Payload.length] : List Nat).length
        + f.Payload.length := by
    simp only [List.length_cons, List.length_nil]
    try omega
  rw [FrameSpec.bytes_eq, h0, getD_add_length]
  rw [List.getD_append_right _ _ 0 _ (Nat.le_refl _)]
  have h2 : f.Payload.length - f.Payload.length = 0 := by omega
  rw [h2]
  rfl

theorem FrameSpec.bytes_crc_slice (f : FrameSpec) :
    (f.bytes.drop 1).take (6 + f.Payload.length)
      = [f.Ver, f.Src, f.Typ, f.SeqLo, f.SeqHi, f.Payload.length] ++ f.Payload := by
  have h1 : f.bytes.drop 1
      = [f.Ver, f.Src, f.Typ, f.SeqLo, f.SeqHi, f.Payload.length]
        ++ (f.Payload ++ [f.crc, EndByte]) := rfl
  rw [h1, List.take_append_eq_append_take]
  have h2 : ([f.Ver, f.Src, f.Typ, f.SeqLo, f.SeqHi, f.Payload.length] : List Nat).take
      (6 + f.Payload.length) = [f.Ver, f.Src, f.Typ, f.SeqLo, f.SeqHi, f.Payload.length] :=
    List.take_of_length_le (by simp only [List.length_cons, List.length_nil]; omega)
  have h3 : 6 + f.Payload.length
      - ([f.Ver, f.Src, f.Typ, f.SeqLo, f.SeqHi, f.Payload.length] : List Nat).length
      = f.Payload.length := by
    simp only [List.length_cons, List.length_nil]
    omega
  rw [h2, h3, List.take_append_of_le_length (Nat.le_refl _), List.take_length]

theorem FrameSpec.crc_compute (f : FrameSpec) :
    ComputeCrc f.bytes 0 f.Payload.length = f.crc := by
  unfold ComputeCrc FrameSpec.crc
  rw [show (0 + 1) = 1 from rfl, FrameSpec.bytes_crc_slice]

theorem FrameSpec.bytes_payload_slice (f : FrameSpec) :
    (f.bytes.drop 7).take f.Payload.length = f.Payload := by
  show ((f.Payload ++ [f.crc, EndByte]).take f.Payload.length) = _
  rw [List.take_append_of_le_length (Nat.le_refl _)]
  simp

theorem joinFrames_nil : joinFrames [] = [] := rfl

theorem joinFrames_cons (f : FrameSpec) (fs : List FrameSpec) :
    joinFrames (f :: fs) = f.bytes ++ joinFrames fs := by
  simp [joinFrames]

/-! ### Behaviour of the parse loop -/

theorem parseLoopF_at_end (maxP : Nat) (buf : List Nat) (fuel ri pp : Nat)
    (acc : List FBenchPacket) (d be cm : Nat)
    (h : buf.length ≤ ri) (hf : 0 < fuel) :
    parseLoopF maxP buf fuel ri pp acc d be cm = ⟨acc, d, be, cm, []⟩ := by
  cases fuel with
  | zero => omega
  | succ fl =>
    by_cases hpp : pp < maxP
    · simp [parseLoopF, hpp, FindStartByte_of_ge buf ri h, Nat.sub_eq_zero_of_le h]
    · simp [parseLoopF, hpp, List.drop_eq_nil_of_le h]

theorem frame_getD_at (pre rest : List Nat) (f : FrameSpec) (k : Nat)
    (hk : k < MinFrameSize + f.Payload.length) :
    (pre ++ (f.bytes ++ rest)).getD (pre.length + k) 0 = f.bytes.getD k 0 := by
  rw [getD_add_length]
  exact List.getD_append _ _ 0 _ (by rw [FrameSpec.bytes_length]; omega)

theorem frame_crc_at (pre rest : List Nat) (f : FrameSpec) :
    ComputeCrc (pre ++ (f.bytes ++ rest)) pre.length f.Payload.length = f.crc := by
  unfold ComputeCrc
  rw [drop_add_length]
  rw [List.drop_append_of_le_length (by rw [FrameSpec.bytes_length]; unfold MinFrameSize; omega)]
  rw [List.take_append_of_le_length
    (by rw [List.length_drop, FrameSpec.bytes_length]; unfold MinFrameSize; omega)]
  rw [FrameSpec.bytes_crc_slice]
  rfl

theorem frame_decode_at (pre rest : List Nat) (f : FrameSpec) :
    DecodePacketAt (pre ++ (f.bytes ++ rest)) pre.length f.Payload.length = f.packet := by
  have h1 : ∀ k, k < MinFrameSize + f.Payload.length →
      (pre ++ (f.bytes ++ rest)).getD (pre.length + k) 0 = f.bytes.getD k 0 :=
    fun k hk => frame_getD_at pre rest f k hk
  unfold DecodePacketAt
  rw [h1 1 (by unfold MinFrameSize; omega), h1 2 (by unfold MinFrameSize; omega),
    h1 3 (by unfold MinFrameSize; omega), h1 4 (by unfold MinFrameSize; omega),
    h1 5 (by unfold MinFrameSize; omega), h1 6 (by unfold MinFrameSize; omega)]
  rw [drop_add_length]
  rw [List.drop_append_of_le_length (by rw [FrameSpec.bytes_length]; unfold MinFrameSize; omega)]
  rw [List.take_append_of_le_length
    (by rw [List.length_drop, FrameSpec.bytes_length]; unfold MinFrameSize; omega)]
  rw [FrameSpec.bytes_payload_slice]
  rfl

theorem frame_start_at (pre rest : List Nat) (f : FrameSpec) :
    FindStartByte (pre ++ (f.bytes ++ rest)) pre.length = some pre.length := by
  apply FindStartByte_self
  · simp [FrameSpec.bytes_length, MinFrameSize]
  · have := frame_getD_at pre rest f 0 (by unfold MinFrameSize; omega)
    rw [Nat.add_zero] at this
    rw [this]
    exact f.bytes_getD_zero

theorem parseLoopF_step_decode (maxP fuel ri pp : Nat) (acc : List FBenchPacket)
    (d be cm : Nat) (pre rest : List Nat) (f : FrameSpec)
    (hL : f.Payload.length ≤ MaxPayloadLen)
    (hfind : FindStartByte (pre ++ (f.bytes ++ rest)) ri = some pre.length)
    (hpp : pp < maxP) :
    parseLoopF maxP (pre ++ (f.bytes ++ rest)) (fuel + 1) ri pp acc d be cm
      = parseLoopF maxP (pre ++ (f.bytes ++ rest)) fuel
          (pre.length + (MinFrameSize + f.Payload.length)) (pp + 1)
          (acc ++ [f.packet]) (d + (pre.length - ri)) be cm := by
  have hlen : (pre ++ (f.bytes ++ rest)).length
      = pre.length + ((MinFrameSize + f.Payload.length) + rest.length) := by
    simp [List.length_append, FrameSpec.bytes_length]
    try omega
  have h6 : (pre ++ (f.bytes ++ rest)).getD (pre.length + 6) 0 = f.Payload.length := by
    rw [frame_getD_at pre rest f 6 (by unfold MinFrameSize; omega)]
    exact f.bytes_getD_six
  have h7 : ¬ ((pre ++ (f.bytes ++ rest)).length - pre.length < MinBytesToReadHeader) := by
    rw [hlen]
    unfold MinBytesToReadHeader MinFrameSize
    omega
  have hgt : ¬ (f.Payload.length > MaxPayloadLen) := Nat.not_lt.mpr hL
  have h9 : ¬ ((pre ++ (f.bytes ++ rest)).length - pre.length
      < MinFrameSize + f.Payload.length) := by
    rw [hlen]
    omega
  have hend : (pre ++ (f.bytes ++ rest)).getD (pre.length + 8 + f.Payload.length) 0
      = EndByte := by
    rw [Nat.add_assoc, frame_getD_at pre rest f (8 + f.Payload.length)
      (by unfold MinFrameSize; omega)]
    exact f.bytes_getD_end
  have hstored : (pre ++ (f.bytes ++ rest)).getD (pre.length + 7 + f.Payload.length) 0
      = f.crc := by
    rw [Nat.add_assoc, frame_getD_at pre rest f (7 + f.Payload.length)
      (by unfold MinFrameSize; omega)]
    exact f.bytes_getD_crc
  have hcrc : ComputeCrc (pre ++ (f.bytes ++ rest)) pre.length f.Payload.length = f.crc :=
    frame_crc_at pre rest f
  have hdec : DecodePacketAt (pre ++ (f.bytes ++ rest)) pre.length f.Payload.length
      = f.packet := frame_decode_at pre rest f
  simp only [parseLoopF, hfind, if_pos hpp, h6, h7, hgt, h9, hend, hstored, hcrc, hdec,
    if_false, ite_false, ne_eq, not_true_eq_false]

theorem parseLoopF_frames (maxP : Nat) (fs : List FrameSpec)
    (hv : ∀ f ∈ fs, f.Payload.length ≤ MaxPayloadLen) :
    ∀ (fuel : Nat) (pre : List Nat) (pp : Nat) (acc : List FBenchPacket) (d be cm : Nat),
      (joinFrames fs).length < fuel →
      parseLoopF maxP (pre ++ joinFrames fs) fuel pre.length pp acc d be cm
        = ⟨acc ++ (fs.take (maxP - pp)).map FrameSpec.packet, d, be, cm,
           joinFrames (fs.drop (maxP - pp))⟩ := by
  induction fs with
  | nil =>
    intro fuel pre pp acc d be cm hfuel
    rw [joinFrames_nil, List.append_nil]
    rw [parseLoopF_at_end maxP pre fuel pre.length pp acc d be cm (Nat.le_refl _) (by omega)]
    simp [joinFrames_nil]
  | cons f fs ih =>
    intro fuel pre pp acc d be cm hfuel
    have hMFS : MinFrameSize = 9 := rfl
    have hjlen : (joinFrames (f :: fs)).length = f.bytes.length + (joinFrames fs).length := by
      rw [joinFrames_cons, List.length_append]
    have hbl : f.bytes.length = MinFrameSize + f.Payload.length := f.bytes_length
    by_cases hpp : pp < maxP
    · cases fuel with
      | zero => omega
      | succ fl =>
        rw [joinFrames_cons]
        rw [parseLoopF_step_decode maxP fl pre.length pp acc d be cm pre (joinFrames fs) f
          (hv f (List.mem_cons_self f fs)) (frame_start_at pre (joinFrames fs) f) hpp]
        have hassoc : pre ++ (f.bytes ++ joinFrames fs)
            = (pre ++ f.bytes) ++ joinFrames fs := by
          rw [List.append_assoc]
        have hidx : pre.length + (MinFrameSize + f.Payload.length)
            = (pre ++ f.bytes).length := by
          rw [List.length_append, hbl]
        rw [hassoc, hidx]
        simp only [Nat.sub_self, Nat.add_zero]
        rw [ih (fun g hg => hv g (List.mem_cons_of_mem f hg)) fl (pre ++ f.bytes) (pp + 1)
          (acc ++ [f.packet]) d be cm (by omega)]
        have hm : maxP - pp = (maxP - (pp + 1)) + 1 := by omega
        rw [hm, List.take_succ_cons, List.drop_succ_cons, List.map_cons]
        simp
    · cases fuel with
      | zero => omega
      | succ fl =>
        have hm : maxP - pp = 0 := by omega
        simp only [parseLoopF, if_neg hpp, hm, List.take_zero, List.drop_zero,
          List.map_nil, List.append_nil, List.drop_left]

theorem ParsePacketsCore_frames (maxP : Nat) (fs : List FrameSpec)
    (hv : ∀ f ∈ fs, f.Payload.length ≤ MaxPayloadLen) :
    ParsePacketsCore maxP (joinFrames fs)
      = ⟨(fs.take maxP).map FrameSpec.packet, 0, 0, 0, joinFrames (fs.drop maxP)⟩ := by
  unfold ParsePacketsCore
  have h := parseLoopF_frames maxP fs hv ((joinFrames fs).length + 1) [] 0 [] 0 0 0
    (by omega)
  simp only [List.nil_append, List.length_nil, Nat.sub_zero] at h
  rw [h]

/-- A buffer on which the parse loop makes no progress without more input:
either empty, or starting with the start marker with an incomplete (but so
far plausible) frame behind it. -/
def WaitingBuffer (b : List Nat) : Prop :=
  b = [] ∨ (b.getD 0 0 = StartByte ∧
    (b.length < MinBytesToReadHeader ∨
      (b.getD 6 0 ≤ MaxPayloadLen ∧ b.length < MinFrameSize + b.getD 6 0)))

instance (b : List Nat) : Decidable (WaitingBuffer b) := by
  unfold WaitingBuffer; infer_instance

theorem parseLoopF_waiting_or_cap (maxP : Nat) (buf : List Nat) :
    ∀ (fuel ri pp : Nat) (acc : List FBenchPacket) (d be cm : Nat),
      buf.length - ri < fuel →
      WaitingBuffer (parseLoopF maxP buf fuel ri pp acc d be cm).buffer ∨
        (parseLoopF maxP buf fuel ri pp acc d be cm).packets.length
          = acc.length + (maxP - pp) := by
  intro fuel
  induction fuel with
  | zero =>
    intro ri pp acc d be cm h
    omega
  | succ fl ih =>
    intro ri pp acc d be cm hfuel
    have hMFS : MinFrameSize = 9 := rfl
    by_cases hpp : pp < maxP
    · cases hfind : FindStartByte buf ri with
      | none =>
        left
        simp only [parseLoopF, if_pos hpp, hfind]
        exact Or.inl rfl
      | some si =>
        obtain ⟨hsi1, hsi2, hsi3⟩ := FindStartByte_bounds buf ri si hfind
        by_cases h7 : buf.length - si < MinBytesToReadHeader
        · left
          simp only [parseLoopF, if_pos hpp, hfind, if_pos h7]
          right
          refine ⟨?_, Or.inl ?_⟩
          · rw [getD_drop_add, Nat.add_zero]
            exact hsi3
          · rw [List.length_drop]
            exact h7
        · by_cases hgt : buf.getD (si + 6) 0 > MaxPayloadLen
          · have h := ih (si + 1) pp acc (d + (si - ri) + 1) be cm (by omega)
            simpa only [parseLoopF, if_pos hpp, hfind, if_neg h7, if_pos hgt] using h
          · by_cases h9 : buf.length - si < MinFrameSize + buf.getD (si + 6) 0
            · left
              simp only [parseLoopF, if_pos hpp, hfind, if_neg h7, if_neg hgt, if_pos h9]
              right
              refine ⟨?_, Or.inr ⟨?_, ?_⟩⟩
              · rw [getD_drop_add, Nat.add_zero]
                exact hsi3
              · rw [getD_drop_add]
                exact Nat.not_lt.mp hgt
              · rw [List.length_drop, getD_drop_add]
                exact h9
            · by_cases hend : buf.getD (si + 8 + buf.getD (si + 6) 0) 0 ≠ EndByte
              · have h := ih (si + 1) pp acc (d + (si - ri) + 1) (be + 1) cm (by omega)
                simpa only [parseLoopF, if_pos hpp, hfind, if_neg h7, if_neg hgt,
                  if_neg h9, if_pos hend] using h
              · by_cases hcrc : ComputeCrc buf si (buf.getD (si + 6) 0)
                    ≠ buf.getD (si + 7 + buf.getD (si + 6) 0) 0
                · have h := ih (si + 1) pp acc (d + (si - ri) + 1) be (cm + 1) (by omega)
                  simpa only [parseLoopF, if_pos hpp, hfind, if_neg h7, if_neg hgt,
                    if_neg h9, if_neg hend, if_pos hcrc] using h
                · have h := ih (si + (MinFrameSize + buf.getD (si + 6) 0)) (pp + 1)
                    (acc ++ [DecodePacketAt buf si (buf.getD (si + 6) 0)])
                    (d + (si - ri)) be cm (by omega)
                  rcases h with h | h
                  · left
                    simpa only [parseLoopF, if_pos hpp, hfind, if_neg h7, if_neg hgt,
                      if_neg h9, if_neg hend, if_neg hcrc] using h
                  · right
                    have h2 : (parseLoopF maxP buf (fl + 1) ri pp acc d be cm).packets.length
                        = (acc ++ [DecodePacketAt buf si (buf.getD (si + 6) 0)]).length
                          + (maxP - (pp + 1)) := by
                      simpa only [parseLoopF, if_pos hpp, hfind, if_neg h7, if_neg hgt,
                        if_neg h9, if_neg hend, if_neg hcrc] using h
                    rw [h2, List.length_append, List.length_cons, List.length_nil]
                    omega
    · right
      simp only [parseLoopF, if_neg hpp]
      omega

theorem ParsePacketsCore_of_waiting (maxP : Nat) (b : List Nat) (h : WaitingBuffer b) :
    ParsePacketsCore maxP b = ⟨[], 0, 0, 0, b⟩ := by
  unfold ParsePacketsCore
  by_cases hpp : 0 < maxP
  · rcases h with hb | ⟨hhead, hrest⟩
    · subst hb
      simp [parseLoopF, hpp, FindStartByte_of_ge ([] : List Nat) 0 (Nat.le_refl 0)]
    · have hne : b ≠ [] := by
        intro he
        rw [he] at hhead
        simp [StartByte, List.getD] at hhead
      have hlen0 : 0 < b.length := List.length_pos.mpr hne
      have hfind : FindStartByte b 0 = some 0 := FindStartByte_self b 0 hlen0 hhead
      rcases hrest with h7 | ⟨hle, h9⟩
      · simp only [parseLoopF, if_pos hpp, hfind,
          if_pos (show b.length - 0 < MinBytesToReadHeader by omega)]
        simp
      · by_cases h7 : b.length - 0 < MinBytesToReadHeader
        · simp only [parseLoopF, if_pos hpp, hfind, if_pos h7]
          simp
        · have hgt : ¬ (b.getD (0 + 6) 0 > MaxPayloadLen) := by
            simpa using Nat.not_lt.mpr hle
          have h9z : b.length - 0 < MinFrameSize + b.getD (0 + 6) 0 := by
            simpa using h9
          simp only [parseLoopF, if_pos hpp, hfind, if_neg h7, if_neg hgt, if_pos h9z]
          simp
  · simp [parseLoopF, hpp]

theorem parseLoopF_buffer_length_le (maxP : Nat) (buf : List Nat) :
    ∀ (fuel ri pp : Nat) (acc : List FBenchPacket) (d be cm : Nat),
      (parseLoopF maxP buf fuel ri pp acc d be cm).buffer.length ≤ buf.length := by
  intro fuel
  induction fuel with
  | zero =>
    intro ri pp acc d be cm
    simp only [parseLoopF, List.length_drop]
    omega
  | succ fl ih =>
    intro ri pp acc d be cm
    by_cases hpp : pp < maxP
    · cases hfind : FindStartByte buf ri with
      | none => simp [parseLoopF, hpp, hfind]
      | some si =>
        by_cases h7 : buf.length - si < MinBytesToReadHeader
        · simp only [parseLoopF, if_pos hpp, hfind, if_pos h7, List.length_drop]
          omega
        · by_cases hgt : buf.getD (si + 6) 0 > MaxPayloadLen
          · simpa only [parseLoopF, if_pos hpp, hfind, if_neg h7, if_pos hgt] using
              ih (si + 1) pp acc (d + (si - ri) + 1) be cm
          · by_cases h9 : buf.length - si < MinFrameSize + buf.getD (si + 6) 0
            · simp only [parseLoopF, if_pos hpp, hfind, if_neg h7, if_neg hgt, if_pos h9,
                List.length_drop]
              omega
            · by_cases hend : buf.getD (si + 8 + buf.getD (si + 6) 0) 0 ≠ EndByte
              · simpa only [parseLoopF, if_pos hpp, hfind, if_neg h7, if_neg hgt,
                  if_neg h9, if_pos hend] using
                  ih (si + 1) pp acc (d + (si - ri) + 1) (be + 1) cm
              · by_cases hcrc : ComputeCrc buf si (buf.getD (si + 6) 0)
                    ≠ buf.getD (si + 7 + buf.getD (si + 6) 0) 0
                · simpa only [parseLoopF, if_pos hpp, hfind, if_neg h7, if_neg hgt,
                    if_neg h9, if_neg hend, if_pos hcrc] using
                    ih (si + 1) pp acc (d + (si - ri) + 1) be (cm + 1)
                · simpa only [parseLoopF, if_pos hpp, hfind, if_neg h7, if_neg hgt,
                    if_neg h9, if_neg hend, if_neg hcrc] using
                    ih (si + (MinFrameSize + buf.getD (si + 6) 0)) (pp + 1)
                      (acc ++ [DecodePacketAt buf si (buf.getD (si + 6) 0)])
                      (d + (si - ri)) be cm
    · simp only [parseLoopF, if_neg hpp, List.length_drop]
      omega

theorem ParsePacketsCore_junk (maxP : Nat) (b : List Nat) (hmax : 0 < maxP)
    (h : ∀ x ∈ b, x ≠ StartByte) :
    ParsePacketsCore maxP b = ⟨[], b.length, 0, 0, []⟩ := by
  unfold ParsePacketsCore
  simp only [parseLoopF, if_pos hmax, FindStartByte_none_of_junk b h 0]
  simp

theorem ParsePacketsCore_prefix_wait (maxP : Nat) (f : FrameSpec)
    (hL : f.Payload.length ≤ MaxPayloadLen) (p q : List Nat)
    (hpq : p ++ q = f.bytes) (hq : q ≠ []) :
    ParsePacketsCore maxP p = ⟨[], 0, 0, 0, p⟩ := by
  apply ParsePacketsCore_of_waiting
  rcases List.eq_nil_or_concat p with hp | _
  · exact Or.inl hp
  · by_cases hp : p = []
    · exact Or.inl hp
    · right
      have hlen0 : 0 < p.length := List.length_pos.mpr hp
      have hplen : p.length + q.length = MinFrameSize + f.Payload.length := by
        rw [← FrameSpec.bytes_length, ← hpq, List.length_append]
      have hqlen : 0 < q.length := List.length_pos.mpr hq
      constructor
      · have : f.bytes.getD 0 0 = p.getD 0 0 := by
          rw [← hpq]
          exact List.getD_append p q 0 0 hlen0
        rw [← this]
        exact f.bytes_getD_zero
      · by_cases h7 : p.length < MinBytesToReadHeader
        · exact Or.inl h7
        · right
          have h6 : p.getD 6 0 = f.Payload.length := by
            have : f.bytes.getD 6 0 = p.getD 6 0 := by
              rw [← hpq]
              exact List.getD_append p q 0 6 (by
                unfold MinBytesToReadHeader at h7
                omega)
            rw [← this]
            exact f.bytes_getD_six
          rw [h6]
          exact ⟨hL, by omega⟩

/-! ### Bounds-checked variant of the parser (safety of all buffer reads) -/

theorem get_opt_eq_some_getD (l : List Nat) (i : Nat) (h : i < l.length) :
    l.get? i = some (l.getD i 0) := by
  rw [List.get?_eq_getElem?, List.getElem?_eq_getElem h, List.getD_eq_getElem l 0 h]

/-- Bounds-checked `DecodePacketAt`: every header byte is fetched with an
in-bounds check, and the payload copy demands that all `payloadLen` source
bytes exist. -/
def DecodePacketAtChecked (buf : List Nat) (offset payloadLen : Nat) :
    Option FBenchPacket := do
  let ver ← buf.get? (offset + 1)
  let src ← buf.get? (offset + 2)
  let ty ← buf.get? (offset + 3)
  let lo ← buf.get? (offset + 4)
  let hi ← buf.get? (offset + 5)
  let len ← buf.get? (offset + 6)
  if offset + 7 + payloadLen ≤ buf.length then
    some { Ver := ver, Src := src, Typ := ty, Seq := Nat.lor lo (Nat.shiftLeft hi 8),
           Len := len, Payload := (buf.drop (offset + 7)).take payloadLen }
  else none

/-- Bounds-checked `ComputeCrc`: the XOR loop reads the contiguous indices
`offset + 1 .. offset + 6 + payloadLen`, so it is in bounds exactly when the
last of them is. -/
def ComputeCrcChecked (buf : List Nat) (offset payloadLen : Nat) : Option Nat :=
  if offset + 6 + payloadLen < buf.length then some (ComputeCrc buf offset payloadLen)
  else none

/-- Bounds-checked parse loop: identical control flow to `parseLoopF`, but
every buffer access outside the scan helper goes through an in-bounds check
and any violation aborts with `none`. -/
def parseLoopChecked (maxPackets : Nat) (buf : List Nat) :
    Nat → Nat → Nat → List FBenchPacket → Nat → Nat → Nat → Option LoopResult
  | 0, readIndex, _, acc, dropped, badEnd, crcMis =>
    some ⟨acc, dropped, badEnd, crcMis, buf.drop readIndex⟩
  | fuel + 1, readIndex, packetsParsed, acc, dropped, badEnd, crcMis =>
    if packetsParsed < maxPackets then
      match FindStartByte buf readIndex with
      | none => some ⟨acc, dropped + (buf.length - readIndex), badEnd, crcMis, []⟩
      | some startIndex =>
        let dropped := dropped + (startIndex - readIndex)
        let bytesRemaining := buf.length - startIndex
        if bytesRemaining < MinBytesToReadHeader then
          some ⟨acc, dropped, badEnd, crcMis, buf.drop startIndex⟩
        else
          match buf.get? (startIndex + 6) with
          | none => none
          | some payloadLen =>
            if payloadLen > MaxPayloadLen then
              parseLoopChecked maxPackets buf fuel (startIndex + 1) packetsParsed acc
                (dropped + 1) badEnd crcMis
            else if bytesRemaining < MinFrameSize + payloadLen then
              some ⟨acc, dropped, badEnd, crcMis, buf.drop startIndex⟩
            else
              match buf.get? (startIndex + 8 + payloadLen) with
              | none => none
              | some endB =>
                if endB ≠ EndByte then
                  parseLoopChecked maxPackets buf fuel (startIndex + 1) packetsParsed acc
                    (dropped + 1) (badEnd + 1) crcMis
                else
                  match ComputeCrcChecked buf startIndex payloadLen,
                      buf.get? (startIndex + 7 + payloadLen) with
                  | some crcv, some stored =>
                    if crcv ≠ stored then
                      parseLoopChecked maxPackets buf fuel (startIndex + 1) packetsParsed acc
                        (dropped + 1) badEnd (crcMis + 1)
                    else
                      match DecodePacketAtChecked buf startIndex payloadLen with
                      | none => none
                      | some pkt =>
                        parseLoopChecked maxPackets buf fuel
                          (startIndex + (MinFrameSize + payloadLen)) (packetsParsed + 1)
                          (acc ++ [pkt]) dropped badEnd crcMis
                  | _, _ => none
    else some ⟨acc, dropped, badEnd, crcMis, buf.drop readIndex⟩

/-- Bounds-checked `ParsePackets` core. -/
def ParsePacketsCoreChecked (maxPackets : Nat) (buf : List Nat) : Option LoopResult :=
  parseLoopChecked maxPackets buf (buf.length + 1) 0 0 [] 0 0 0

theorem DecodePacketAtChecked_eq (buf : List Nat) (offset payloadLen : Nat)
    (h : offset + 7 + payloadLen ≤ buf.length) :
    DecodePacketAtChecked buf offset payloadLen
      = some (DecodePacketAt buf offset payloadLen) := by
  unfold DecodePacketAtChecked DecodePacketAt
  rw [get_opt_eq_some_getD _ _ (by omega), get_opt_eq_some_getD _ _ (by omega),
    get_opt_eq_some_getD _ _ (by omega), get_opt_eq_some_getD _ _ (by omega),
    get_opt_eq_some_getD _ _ (by omega), get_opt_eq_some_getD _ _ (by omega)]
  simp [if_pos h]

theorem parseLoopChecked_eq (maxP : Nat) (buf : List Nat) :
    ∀ (fuel ri pp : Nat) (acc : List FBenchPacket) (d be cm : Nat),
      parseLoopChecked maxP buf fuel ri pp acc d be cm
        = some (parseLoopF maxP buf fuel ri pp acc d be cm) := by
  intro fuel
  induction fuel with
  | zero =>
    intro ri pp acc d be cm
    rfl
  | succ fl ih =>
    intro ri pp acc d be cm
    have hMFS : MinFrameSize = 9 := rfl
    by_cases hpp : pp < maxP
    · cases hfind : FindStartByte buf ri with
      | none => simp only [parseLoopChecked, parseLoopF, if_pos hpp, hfind]
      | some si =>
        obtain ⟨hsi1, hsi2, hsi3⟩ := FindStartByte_bounds buf ri si hfind
        by_cases h7 : buf.length - si < MinBytesToReadHeader
        · simp only [parseLoopChecked, parseLoopF, if_pos hpp, hfind, if_pos h7]
        · have h6lt : si + 6 < buf.length := by
            unfold MinBytesToReadHeader at h7
            omega
          have h6 : buf.get? (si + 6) = some (buf.getD (si + 6) 0) :=
            get_opt_eq_some_getD buf (si + 6) h6lt
          by_cases hgt : buf.getD (si + 6) 0 > MaxPayloadLen
          · simp only [parseLoopChecked, parseLoopF, if_pos hpp, hfind, if_neg h7, h6,
              if_pos hgt]
            exact ih (si + 1) pp acc (d + (si - ri) + 1) be cm
          · by_cases h9 : buf.length - si < MinFrameSize + buf.getD (si + 6) 0
            · simp only [parseLoopChecked, parseLoopF, if_pos hpp, hfind, if_neg h7, h6,
                if_neg hgt, if_pos h9]
            · have hend_lt : si + 8 + buf.getD (si + 6) 0 < buf.length := by omega
              have h8 : buf.get? (si + 8 + buf.getD (si + 6) 0)
                  = some (buf.getD (si + 8 + buf.getD (si + 6) 0) 0) :=
                get_opt_eq_some_getD buf _ hend_lt
              have hcrcc : ComputeCrcChecked buf si (buf.getD (si + 6) 0)
                  = some (ComputeCrc buf si (buf.getD (si + 6) 0)) := by
                unfold ComputeCrcChecked
                rw [if_pos (by omega)]
              have h7s : buf.get? (si + 7 + buf.getD (si + 6) 0)
                  = some (buf.getD (si + 7 + buf.getD (si + 6) 0) 0) :=
                get_opt_eq_some_getD buf _ (by omega)
              have hdecc : DecodePacketAtChecked buf si (buf.getD (si + 6) 0)
                  = some (DecodePacketAt buf si (buf.getD (si + 6) 0)) :=
                DecodePacketAtChecked_eq buf si _ (by omega)
              by_cases hend : buf.getD (si + 8 + buf.getD (si + 6) 0) 0 ≠ EndByte
              · simp only [parseLoopChecked, parseLoopF, if_pos hpp, hfind, if_neg h7, h6,
                  if_neg hgt, if_neg h9, h8, if_pos hend]
                exact ih (si + 1) pp acc (d + (si - ri) + 1) (be + 1) cm
              · by_cases hcrc : ComputeCrc buf si (buf.getD (si + 6) 0)
                    ≠ buf.getD (si + 7 + buf.getD (si + 6) 0) 0
                · simp only [parseLoopChecked, parseLoopF, if_pos hpp, hfind, if_neg h7, h6,
                    if_neg hgt, if_neg h9, h8, if_neg hend, hcrcc, h7s, if_pos hcrc]
                  exact ih (si + 1) pp acc (d + (si - ri) + 1) be (cm + 1)
                · simp only [parseLoopChecked, parseLoopF, if_pos hpp, hfind, if_neg h7, h6,
                    if_neg hgt, if_neg h9, h8, if_neg hend, hcrcc, h7s, if_neg hcrc, hdecc]
                  exact ih (si + (MinFrameSize + buf.getD (si + 6) 0)) (pp + 1)
                    (acc ++ [DecodePacketAt buf si (buf.getD (si + 6) 0)])
                    (d + (si - ri)) be cm
    · simp only [parseLoopChecked, parseLoopF, if_neg hpp]

/-! ### Well-formedness of every emitted packet -/

/-- What holds of every packet the parser ever emits from buffer `buf`: the
length field respects the protocol bound, the payload has exactly that many
bytes, the sequence number fits in 16 bits, and the packet was decoded from a
frame-sized span of `buf` that passed the end-marker and CRC checks. -/
def PacketWellFormed (buf : List Nat) (p : FBenchPacket) : Prop :=
  p.Len ≤ MaxPayloadLen ∧ p.Payload.length = p.Len ∧ p.Seq < 65536 ∧
    ∃ off, buf.getD (off + 6) 0 = p.Len ∧ off + (MinFrameSize + p.Len) ≤ buf.length ∧
      buf.getD (off + 8 + p.Len) 0 = EndByte ∧
      ComputeCrc buf off p.Len = buf.getD (off + 7 + p.Len) 0 ∧
      p = DecodePacketAt buf off p.Len

theorem decode_wellFormed (buf : List Nat) (hbytes : ∀ b ∈ buf, b < 256) (si : Nat)
    (hle : buf.getD (si + 6) 0 ≤ MaxPayloadLen)
    (hfit : si + (MinFrameSize + buf.getD (si + 6) 0) ≤ buf.length)
    (hend : buf.getD (si + 8 + buf.getD (si + 6) 0) 0 = EndByte)
    (hcrc : ComputeCrc buf si (buf.getD (si + 6) 0)
      = buf.getD (si + 7 + buf.getD (si + 6) 0) 0) :
    PacketWellFormed buf (DecodePacketAt buf si (buf.getD (si + 6) 0)) := by
  have hMFS : MinFrameSize = 9 := rfl
  have hLen : (DecodePacketAt buf si (buf.getD (si + 6) 0)).Len = buf.getD (si + 6) 0 := rfl
  refine ⟨by rw [hLen]; exact hle, ?_, ?_, si, by rw [hLen], by rw [hLen]; exact hfit,
    by rw [hLen]; exact hend, by rw [hLen]; exact hcrc, by rw [hLen]⟩
  · show ((buf.drop (si + 7)).take (buf.getD (si + 6) 0)).length = _
    rw [hLen, List.length_take, List.length_drop]
    omega
  · show Nat.lor (buf.getD (si + 4) 0) (Nat.shiftLeft (buf.getD (si + 5) 0) 8) < 65536
    have h4 : buf.getD (si + 4) 0 < 256 := getD_lt_of_bytes buf hbytes _
    have h5 : buf.getD (si + 5) 0 < 256 := getD_lt_of_bytes buf hbytes _
    have hsh : Nat.shiftLeft (buf.getD (si + 5) 0) 8 < 2 ^ 16 :=
      Nat.shiftLeft_lt (show buf.getD (si + 5) 0 < 2 ^ 8 by omega)
    have hlo : buf.getD (si + 4) 0 < 2 ^ 16 := by omega
    have hb := Nat.bitwise_lt (f := or) hlo hsh
    simpa using hb

theorem parseLoopF_wellFormed (maxP : Nat) (buf : List Nat)
    (hbytes : ∀ b ∈ buf, b < 256) :
    ∀ (fuel ri pp : Nat) (acc : List FBenchPacket) (d be cm : Nat),
      (∀ p ∈ acc, PacketWellFormed buf p) →
      ∀ p ∈ (parseLoopF maxP buf fuel ri pp acc d be cm).packets, PacketWellFormed buf p := by
  intro fuel
  induction fuel with
  | zero =>
    intro ri pp acc d be cm hacc
    simpa only [parseLoopF] using hacc
  | succ fl ih =>
    intro ri pp acc d be cm hacc
    have hMFS : MinFrameSize = 9 := rfl
    by_cases hpp : pp < maxP
    · cases hfind : FindStartByte buf ri with
      | none => simpa only [parseLoopF, if_pos hpp, hfind] using hacc
      | some si =>
        obtain ⟨hsi1, hsi2, hsi3⟩ := FindStartByte_bounds buf ri si hfind
        by_cases h7 : buf.length - si < MinBytesToReadHeader
        · simpa only [parseLoopF, if_pos hpp, hfind, if_pos h7] using hacc
        · by_cases hgt : buf.getD (si + 6) 0 > MaxPayloadLen
          · simpa only [parseLoopF, if_pos hpp, hfind, if_neg h7, if_pos hgt] using
              ih (si + 1) pp acc (d + (si - ri) + 1) be cm hacc
          · by_cases h9 : buf.length - si < MinFrameSize + buf.getD (si + 6) 0
            · simpa only [parseLoopF, if_pos hpp, hfind, if_neg h7, if_neg hgt,
                if_pos h9] using hacc
            · by_cases hend : buf.getD (si + 8 + buf.getD (si + 6) 0) 0 ≠ EndByte
              · simpa only [parseLoopF, if_pos hpp, hfind, if_neg h7, if_neg hgt,
                  if_neg h9, if_pos hend] using
                  ih (si + 1) pp acc (d + (si - ri) + 1) (be + 1) cm hacc
              · by_cases hcrc : ComputeCrc buf si (buf.getD (si + 6) 0)
                    ≠ buf.getD (si + 7 + buf.getD (si + 6) 0) 0
                · simpa only [parseLoopF, if_pos hpp, hfind, if_neg h7, if_neg hgt,
                    if_neg h9, if_neg hend, if_pos hcrc] using
                    ih (si + 1) pp acc (d + (si - ri) + 1) be (cm + 1) hacc
                · have hnew : ∀ p ∈ acc ++ [DecodePacketAt buf si (buf.getD (si + 6) 0)],
                      PacketWellFormed buf p := by
                    intro p hp
                    rcases List.mem_append.mp hp with hp | hp
                    · exact hacc p hp
                    · rw [List.mem_singleton.mp hp]
                      exact decode_wellFormed buf hbytes si (Nat.not_lt.mp hgt)
                        (by omega) (Decidable.of_not_not hend)
                        (Decidable.of_not_not hcrc)
                  simpa only [parseLoopF, if_pos hpp, hfind, if_neg h7, if_neg hgt,
                    if_neg h9, if_neg hend, if_neg hcrc] using
                    ih (si + (MinFrameSize + buf.getD (si + 6) 0)) (pp + 1)
                      (acc ++ [DecodePacketAt buf si (buf.getD (si + 6) 0)])
                      (d + (si - ri)) be cm hnew
    · simpa only [parseLoopF, if_neg hpp] using hacc

/-! ### State-level helper lemmas -/

theorem AppendBytes_nil (cfg : Config) (s : ParserState) : AppendBytes cfg s [] = s := rfl

theorem EnforceBufferLimits_le (cfg : Config) (s : ParserState)
    (h : s.Buffer.length ≤ cfg.MaxBufferBytes) :
    EnforceBufferLimits cfg s = (s, 0) := by
  unfold EnforceBufferLimits
  rw [if_pos h]

theorem AppendBytes_small (cfg : Config) (s : ParserState) (bs : List Nat) (hbs : bs ≠ [])
    (h : s.Buffer.length + bs.length ≤ cfg.MaxBufferBytes) :
    AppendBytes cfg s bs
      = { s with TotalBytesIn := s.TotalBytesIn + bs.length, Buffer := s.Buffer ++ bs } := by
  unfold AppendBytes
  rw [if_neg (by simpa using hbs)]
  rw [EnforceBufferLimits_le _ _ (by simp only [List.length_append]; exact h)]

theorem EnforceBufferLimits_suffix (cfg : Config) (s : ParserState) :
    ∃ k, k ≤ s.Buffer.length ∧
      (EnforceBufferLimits cfg s).1.Buffer = s.Buffer.drop k ∧
      (EnforceBufferLimits cfg s).1.TotalBytesDropped = s.TotalBytesDropped + k ∧
      (EnforceBufferLimits cfg s).1.TotalBytesIn = s.TotalBytesIn ∧
      (EnforceBufferLimits cfg s).1.TotalPacketsDecoded = s.TotalPacketsDecoded ∧
      (EnforceBufferLimits cfg s).1.TotalBadEndFrames = s.TotalBadEndFrames ∧
      (EnforceBufferLimits cfg s).1.TotalCrcMismatches = s.TotalCrcMismatches := by
  unfold EnforceBufferLimits
  by_cases h1 : s.Buffer.length ≤ cfg.MaxBufferBytes
  · exact ⟨0, by omega, by simp [h1], by simp [h1], by simp [h1], by simp [h1],
      by simp [h1], by simp [h1]⟩
  · by_cases h2 : 0 < cfg.TrimToBytes ∧ cfg.TrimToBytes < s.Buffer.length
    · exact ⟨s.Buffer.length - cfg.TrimToBytes, by omega,
        by simp [h1, h2], by simp [h1, h2], by simp [h1, h2], by simp [h1, h2],
        by simp [h1, h2], by simp [h1, h2]⟩
    · refine ⟨s.Buffer.length, by omega, ?_, ?_, ?_, ?_, ?_, ?_⟩ <;>
        simp [h1, h2, List.drop_eq_nil_of_le]

theorem EnforceBufferLimits_bound (cfg : Config) (s : ParserState)
    (hTM : cfg.TrimToBytes ≤ cfg.MaxBufferBytes) :
    (EnforceBufferLimits cfg s).1.Buffer.length ≤ cfg.MaxBufferBytes := by
  unfold EnforceBufferLimits
  by_cases h1 : s.Buffer.length ≤ cfg.MaxBufferBytes
  · rw [if_pos h1]
    exact h1
  · rw [if_neg h1]
    by_cases h2 : 0 < cfg.TrimToBytes ∧ cfg.TrimToBytes < s.Buffer.length
    · rw [if_pos h2]
      simp only [List.length_drop]
      omega
    · rw [if_neg h2]
      simp

theorem ParsePackets_fst (cfg : Config) (t : ParserState) :
    (ParsePackets cfg t).1 = ParsePacketsCore cfg.MaxPacketsPerCall t.Buffer := rfl

theorem ParsePackets_snd_Buffer (cfg : Config) (t : ParserState) :
    (ParsePackets cfg t).2.Buffer
      = (ParsePacketsCore cfg.MaxPacketsPerCall t.Buffer).buffer := rfl

theorem ParsePackets_state_of_waiting (cfg : Config) (t : ParserState)
    (h : WaitingBuffer t.Buffer) :
    ParsePackets cfg t = (⟨[], 0, 0, 0, t.Buffer⟩, t) := by
  have hcore := ParsePacketsCore_of_waiting cfg.MaxPacketsPerCall t.Buffer h
  unfold ParsePackets
  rw [hcore]
  cases t
  simp

theorem ComputeCrc_front (c r : List Nat) (len : Nat) (h : 7 + len ≤ c.length) :
    ComputeCrc (c ++ r) 0 len = ComputeCrc c 0 len := by
  unfold ComputeCrc
  rw [List.drop_append_of_le_length (by omega)]
  rw [List.take_append_of_le_length (by rw [List.length_drop]; omega)]

theorem resync_then_decode (maxP : Nat) (c : List Nat) (f : FrameSpec)
    (hL : f.Payload.length ≤ MaxPayloadLen) (hclen9 : 9 ≤ c.length)
    (hno : ∀ t, 1 ≤ t → t < c.length → c.getD t 0 ≠ StartByte)
    (fuel pp : Nat) (acc : List FBenchPacket) (d be cm : Nat)
    (hpp : pp < maxP) (hfuel : (c ++ f.bytes).length ≤ fuel) :
    parseLoopF maxP (c ++ f.bytes) fuel 1 pp acc d be cm
      = ⟨acc ++ [f.packet], d + (c.length - 1), be, cm, []⟩ := by
  have hMFS : MinFrameSize = 9 := rfl
  have hbfl : f.bytes.length = MinFrameSize + f.Payload.length := f.bytes_length
  have hn : (c ++ f.bytes).length = c.length + f.bytes.length := List.length_append c f.bytes
  cases fuel with
  | zero => omega
  | succ fl =>
    have hfind : FindStartByte (c ++ f.bytes) 1 = some c.length := by
      have hskip := FindStartByte_skip (c ++ f.bytes) (c.length - 1) 1 (by omega)
        (fun t ht htl => by
          have htc : t < c.length := by omega
          rw [List.getD_append c f.bytes 0 t htc]
          exact hno t ht htc)
      have h1c : 1 + (c.length - 1) = c.length := by omega
      rw [h1c] at hskip
      rw [hskip]
      apply FindStartByte_self
      · omega
      · rw [show c.length = c.length + 0 from by omega, getD_add_length]
        exact f.bytes_getD_zero
    have hshape : c ++ f.bytes = c ++ (f.bytes ++ []) := by simp
    rw [hshape] at hfind ⊢
    rw [parseLoopF_step_decode maxP fl 1 pp acc d be cm c [] f hL hfind hpp]
    rw [parseLoopF_at_end maxP (c ++ (f.bytes ++ [])) fl
      (c.length + (MinFrameSize + f.Payload.length)) (pp + 1) (acc ++ [f.packet])
      (d + (c.length - 1)) be cm
      (by rw [List.length_append, List.length_append, List.length_nil]; omega)
      (by omega)]

theorem corrupted_then_frame_badend (maxP : Nat) (hmax : 0 < maxP) (c : List Nat)
    (f : FrameSpec) (hL : f.Payload.length ≤ MaxPayloadLen)
    (hc0 : c.getD 0 0 = StartByte) (hcL : c.getD 6 0 ≤ MaxPayloadLen)
    (hclen : c.length = MinFrameSize + c.getD 6 0)
    (hno : ∀ t, 1 ≤ t → t < c.length → c.getD t 0 ≠ StartByte)
    (hbadE : c.getD (8 + c.getD 6 0) 0 ≠ EndByte) :
    ParsePacketsCore maxP (c ++ f.bytes) = ⟨[f.packet], c.length, 1, 0, []⟩ := by
  have hMFS : MinFrameSize = 9 := rfl
  have hM7 : MinBytesToReadHeader = 7 := rfl
  have hbfl : f.bytes.length = MinFrameSize + f.Payload.length := f.bytes_length
  have hclen9 : 9 ≤ c.length := by omega
  have hn : (c ++ f.bytes).length = c.length + f.bytes.length := List.length_append c f.bytes
  have hc0lt : 0 < (c ++ f.bytes).length := by omega
  have hfind0 : FindStartByte (c ++ f.bytes) 0 = some 0 :=
    FindStartByte_self _ 0 hc0lt
      (by rw [List.getD_append c f.bytes 0 0 (by omega)]; exact hc0)
  unfold ParsePacketsCore
  simp only [parseLoopF, if_pos hmax, hfind0, Nat.zero_add, Nat.sub_zero, Nat.sub_self,
    Nat.add_zero]
  have h7 : ¬ ((c ++ f.bytes).length < MinBytesToReadHeader) := by omega
  have h6 : (c ++ f.bytes).getD 6 0 = c.getD 6 0 :=
    List.getD_append c f.bytes 0 6 (by omega)
  have hgt : ¬ (c.getD 6 0 > MaxPayloadLen) := Nat.not_lt.mpr hcL
  have h9 : ¬ ((c ++ f.bytes).length < MinFrameSize + c.getD 6 0) := by omega
  have hendE : (c ++ f.bytes).getD (8 + c.getD 6 0) 0 ≠ EndByte := by
    rw [List.getD_append c f.bytes 0 _ (by omega)]
    exact hbadE
  simp only [h6, if_neg h7, if_neg hgt, if_neg h9, if_pos hendE, Nat.zero_add]
  rw [resync_then_decode maxP c f hL hclen9 hno ((c ++ f.bytes).length) 0 [] 1 1 0 hmax
    (Nat.le_refl _)]
  have harith : 1 + (c.length - 1) = c.length := by omega
  rw [harith, List.nil_append]

theorem corrupted_then_frame_badcrc (maxP : Nat) (hmax : 0 < maxP) (c : List Nat)
    (f : FrameSpec) (hL : f.Payload.length ≤ MaxPayloadLen)
    (hc0 : c.getD 0 0 = StartByte) (hcL : c.getD 6 0 ≤ MaxPayloadLen)
    (hclen : c.length = MinFrameSize + c.getD 6 0)
    (hno : ∀ t, 1 ≤ t → t < c.length → c.getD t 0 ≠ StartByte)
    (hendok : c.getD (8 + c.getD 6 0) 0 = EndByte)
    (hbadC : ComputeCrc c 0 (c.getD 6 0) ≠ c.getD (7 + c.getD 6 0) 0) :
    ParsePacketsCore maxP (c ++ f.bytes) = ⟨[f.packet], c.length, 0, 1, []⟩ := by
  have hMFS : MinFrameSize = 9 := rfl
  have hM7 : MinBytesToReadHeader = 7 := rfl
  have hbfl : f.bytes.length = MinFrameSize + f.Payload.length := f.bytes_length
  have hclen9 : 9 ≤ c.length := by omega
  have hn : (c ++ f.bytes).length = c.length + f.bytes.length := List.length_append c f.bytes
  have hc0lt : 0 < (c ++ f.bytes).length := by omega
  have hfind0 : FindStartByte (c ++ f.bytes) 0 = some 0 :=
    FindStartByte_self _ 0 hc0lt
      (by rw [List.getD_append c f.bytes 0 0 (by omega)]; exact hc0)
  unfold ParsePacketsCore
  simp only [parseLoopF, if_pos hmax, hfind0, Nat.zero_add, Nat.sub_zero, Nat.sub_self,
    Nat.add_zero]
  have h7 : ¬ ((c ++ f.bytes).length < MinBytesToReadHeader) := by omega
  have h6 : (c ++ f.bytes).getD 6 0 = c.getD 6 0 :=
    List.getD_append c f.bytes 0 6 (by omega)
  have hgt : ¬ (c.getD 6 0 > MaxPayloadLen) := Nat.not_lt.mpr hcL
  have h9 : ¬ ((c ++ f.bytes).length < MinFrameSize + c.getD 6 0) := by omega
  have hendok2 : ¬ ((c ++ f.bytes).getD (8 + c.getD 6 0) 0 ≠ EndByte) := by
    rw [List.getD_append c f.bytes 0 _ (by omega)]
    exact fun hne => hne hendok
  have hcrcne : ComputeCrc (c ++ f.bytes) 0 (c.getD 6 0)
      ≠ (c ++ f.bytes).getD (7 + c.getD 6 0) 0 := by
    rw [ComputeCrc_front c f.bytes (c.getD 6 0) (by omega)]
    rw [List.getD_append c f.bytes 0 _ (by omega)]
    exact hbadC
  simp only [h6, if_neg h7, if_neg hgt, if_neg h9, if_neg hendok2, if_pos hcrcne,
    Nat.zero_add]
  rw [resync_then_decode maxP c f hL hclen9 hno ((c ++ f.bytes).length) 0 [] 1 0 1 hmax
    (Nat.le_refl _)]
  have harith : 1 + (c.length - 1) = c.length := by omega
  rw [harith, List.nil_append]

/-! ### Feeding a frame in chunks -/

/-- Apply `AppendBytes` then `ParsePackets` for each chunk in turn, keeping
the resulting state. -/
def runChunks (cfg : Config) (s : ParserState) (cs : List (List Nat)) : ParserState :=
  cs.foldl (fun t chunk => (ParsePackets cfg (AppendBytes cfg t chunk)).2) s

theorem stepChunk_prefix (cfg : Config) (f : FrameSpec)
    (hL : f.Payload.length ≤ MaxPayloadLen)
    (hfit : MinFrameSize + f.Payload.length ≤ cfg.MaxBufferBytes)
    (s : ParserState) (chunk rest : List Nat)
    (h : (s.Buffer ++ chunk) ++ rest = f.bytes) (hrest : rest ≠ []) :
    (ParsePackets cfg (AppendBytes cfg s chunk)).1
        = ⟨[], 0, 0, 0, s.Buffer ++ chunk⟩ ∧
      (ParsePackets cfg (AppendBytes cfg s chunk)).2.Buffer = s.Buffer ++ chunk := by
  have hbl : f.bytes.length = MinFrameSize + f.Payload.length := f.bytes_length
  have hlen : (s.Buffer ++ chunk).length + rest.length = f.bytes.length := by
    rw [← h]
    simp [List.length_append]
    omega
  have happ : (AppendBytes cfg s chunk).Buffer = s.Buffer ++ chunk ∧
      AppendBytes cfg s chunk
        = { s with TotalBytesIn := s.TotalBytesIn + chunk.length,
                   Buffer := s.Buffer ++ chunk } ∨
      (AppendBytes cfg s chunk).Buffer = s.Buffer ++ chunk := by
    by_cases hc : chunk = []
    · subst hc
      right
      rw [AppendBytes_nil]
      simp
    · left
      constructor
      · rw [AppendBytes_small cfg s chunk hc
          (by rw [← List.length_append]; omega)]
      · exact AppendBytes_small cfg s chunk hc (by rw [← List.length_append]; omega)
  have hBuf : (AppendBytes cfg s chunk).Buffer = s.Buffer ++ chunk := by
    rcases happ with ⟨h1, _⟩ | h1 <;> exact h1
  have hwait : ParsePacketsCore cfg.MaxPacketsPerCall (s.Buffer ++ chunk)
      = ⟨[], 0, 0, 0, s.Buffer ++ chunk⟩ :=
    ParsePacketsCore_prefix_wait cfg.MaxPacketsPerCall f hL (s.Buffer ++ chunk) rest h hrest
  refine ⟨?_, ?_⟩
  · rw [ParsePackets_fst, hBuf, hwait]
  · rw [ParsePackets_snd_Buffer, hBuf, hwait]

theorem runChunks_prefix_buffer (cfg : Config) (f : FrameSpec)
    (hL : f.Payload.length ≤ MaxPayloadLen)
    (hfit : MinFrameSize + f.Payload.length ≤ cfg.MaxBufferBytes) :
    ∀ (pre : List (List Nat)) (s : ParserState) (rest : List Nat),
      (s.Buffer ++ pre.flatten) ++ rest = f.bytes → rest ≠ [] →
      (runChunks cfg s pre).Buffer = s.Buffer ++ pre.flatten := by
  intro pre
  induction pre with
  | nil =>
    intro s rest h hrest
    simp [runChunks]
  | cons chunk pre ih =>
    intro s rest h hrest
    have hflat : (chunk :: pre).flatten = chunk ++ pre.flatten := by simp
    rw [hflat] at h
    have hstep := stepChunk_prefix cfg f hL hfit s chunk (pre.flatten ++ rest)
      (by rw [← h]; simp [List.append_assoc]) (by
        intro he
        rcases List.append_eq_nil.mp he with ⟨_, h2⟩
        exact hrest h2)
    have hrc : runChunks cfg s (chunk :: pre)
        = runChunks cfg (ParsePackets cfg (AppendBytes cfg s chunk)).2 pre := rfl
    rw [hrc]
    rw [ih (ParsePackets cfg (AppendBytes cfg s chunk)).2 rest
      (by rw [hstep.2, ← h]; simp [List.append_assoc]) hrest]
    rw [hstep.2, hflat, List.append_assoc]

/-! ### Buffer bound over arbitrary call sequences -/

theorem applyOp_buffer_bound (cfg : Config) (hTM : cfg.TrimToBytes ≤ cfg.MaxBufferBytes)
    (s : ParserState) (hs : s.Buffer.length ≤ cfg.MaxBufferBytes) (op : ParserOp) :
    (applyOp cfg s op).Buffer.length ≤ cfg.MaxBufferBytes := by
  cases op with
  | append bs =>
    show (AppendBytes cfg s bs).Buffer.length ≤ _
    unfold AppendBytes
    by_cases hb : bs.length = 0
    · rw [if_pos hb]
      exact hs
    · rw [if_neg hb]
      exact EnforceBufferLimits_bound cfg _ hTM
  | parse =>
    show (ParsePackets cfg s).2.Buffer.length ≤ _
    rw [ParsePackets_snd_Buffer]
    calc (ParsePacketsCore cfg.MaxPacketsPerCall s.Buffer).buffer.length
        ≤ s.Buffer.length := parseLoopF_buffer_length_le _ _ _ 0 0 [] 0 0 0
      _ ≤ cfg.MaxBufferBytes := hs
  | resetBuffer =>
    show (ResetBuffer s).Buffer.length ≤ _
    simp [ResetBuffer]
  | resetStatistics =>
    show (ResetStatistics s).Buffer.length ≤ _
    exact hs

theorem runOps_buffer_bound (cfg : Config) (hTM : cfg.TrimToBytes ≤ cfg.MaxBufferBytes) :
    ∀ (ops : List ParserOp) (s : ParserState), s.Buffer.length ≤ cfg.MaxBufferBytes →
      (runOps cfg s ops).Buffer.length ≤ cfg.MaxBufferBytes := by
  intro ops
  induction ops with
  | nil => intro s hs; exact hs
  | cons op ops ih =>
    intro s hs
    exact ih (applyOp cfg s op) (applyOp_buffer_bound cfg hTM s hs op)

/-! ### Concrete frames used by witnesses -/

/-- The frame from the specification's concrete example:
VER=1, SRC=2, TYPE=3, SEQ=0x0102, LEN=2, PAYLOAD=[0xAB, 0xCD]. -/
def exampleFrame : FrameSpec := ⟨1, 2, 3, 2, 1, [171, 205]⟩

/-- Minimal frame: all fields zero, empty payload. -/
def zeroFrame : FrameSpec := ⟨0, 0, 0, 0, 0, []⟩

theorem ParsePackets_of_core (cfg : Config) (t : ParserState) (r : LoopResult)
    (h : ParsePacketsCore cfg.MaxPacketsPerCall t.Buffer = r) :
    ParsePackets cfg t = (r,
      { t with
          Buffer := r.buffer
          TotalPacketsDecoded := t.TotalPacketsDecoded + r.packets.length
          TotalBytesDropped := t.TotalBytesDropped + r.bytesDropped
          TotalBadEndFrames := t.TotalBadEndFrames + r.badEndFrames
          TotalCrcMismatches := t.TotalCrcMismatches + r.crcMismatches }) := by
  unfold ParsePackets
  rw [h]

/-! ### The claims -/

/-- C1: Framing round-trip — appending the exact bytes of one valid frame
`[0xAA, VER, SRC, TYPE, SEQ_LO, SEQ_HI, LEN, PAYLOAD, CRC, 0x55]` (with
`LEN ≤ 32` and CRC the XOR of the 6 header bytes and the payload) to a parser
with an empty buffer and then calling `ParsePackets` returns exactly one
packet whose `Ver`, `Src`, `Typ`, `Seq = SEQ_LO ||| SEQ_HI <<< 8`, `Len` and
`Payload` equal the frame's fields, with all three per-call drop counters
zero and `GetBufferedByteCount` zero afterwards. -/
theorem C1_framing_roundtrip (f : FrameSpec) (hv : f.Valid) (s : ParserState)
    (hb : s.Buffer = []) :
    (ParsePackets defaultConfig (AppendBytes defaultConfig s f.bytes)).1.packets
        = [{ Ver := f.Ver, Src := f.Src, Typ := f.Typ,
             Seq := Nat.lor f.SeqLo (Nat.shiftLeft f.SeqHi 8),
             Len := f.Payload.length, Payload := f.Payload }] ∧
      (ParsePackets defaultConfig (AppendBytes defaultConfig s f.bytes)).1.bytesDropped = 0 ∧
      (ParsePackets defaultConfig (AppendBytes defaultConfig s f.bytes)).1.badEndFrames = 0 ∧
      (ParsePackets defaultConfig (AppendBytes defaultConfig s f.bytes)).1.crcMismatches = 0 ∧
      GetBufferedByteCount
        (ParsePackets defaultConfig (AppendBytes defaultConfig s f.bytes)).2 = 0 := by
  obtain ⟨-, -, -, -, -, hL, -⟩ := hv
  have hMPL : MaxPayloadLen = 32 := rfl
  have hMFS : MinFrameSize = 9 := rfl
  have hbl : f.bytes.length = MinFrameSize + f.Payload.length := f.bytes_length
  have hbs : f.bytes ≠ [] := by rw [FrameSpec.bytes_eq]; simp
  have happ : AppendBytes defaultConfig s f.bytes
      = { s with TotalBytesIn := s.TotalBytesIn + f.bytes.length,
                 Buffer := s.Buffer ++ f.bytes } :=
    AppendBytes_small defaultConfig s f.bytes hbs (by
      rw [hb]
      show 0 + f.bytes.length ≤ 4096
      omega)
  have hjoin : joinFrames [f] = f.bytes := by simp [joinFrames]
  have hcore := ParsePacketsCore_frames defaultConfig.MaxPacketsPerCall [f]
    (by intro g hg; rw [List.mem_singleton.mp hg]; exact hL)
  rw [hjoin] at hcore
  have htake : [f].take defaultConfig.MaxPacketsPerCall = [f] :=
    List.take_of_length_le (by show 1 ≤ 200; omega)
  have hdrop : [f].drop defaultConfig.MaxPacketsPerCall = ([] : List FrameSpec) :=
    List.drop_eq_nil_of_le (by show 1 ≤ 200; omega)
  rw [htake, hdrop] at hcore
  simp only [List.map_cons, List.map_nil, joinFrames_nil] at hcore
  have htb : (AppendBytes defaultConfig s f.bytes).Buffer = f.bytes := by
    rw [happ]
    show s.Buffer ++ f.bytes = f.bytes
    rw [hb, List.nil_append]
  have hr := ParsePackets_of_core defaultConfig (AppendBytes defaultConfig s f.bytes)
    ⟨[f.packet], 0, 0, 0, []⟩ (by rw [htb]; exact hcore)
  rw [hr]
  exact ⟨rfl, rfl, rfl, rfl, rfl⟩

/-- C1 witness: the specification's concrete example frame on a fresh parser. -/
theorem C1_framing_roundtrip_witness :
    exampleFrame.Valid ∧ initialState.Buffer = [] ∧
    ((ParsePackets defaultConfig
        (AppendBytes defaultConfig initialState exampleFrame.bytes)).1.packets
        = [{ Ver := exampleFrame.Ver, Src := exampleFrame.Src, Typ := exampleFrame.Typ,
             Seq := Nat.lor exampleFrame.SeqLo (Nat.shiftLeft exampleFrame.SeqHi 8),
             Len := exampleFrame.Payload.length, Payload := exampleFrame.Payload }] ∧
      (ParsePackets defaultConfig
        (AppendBytes defaultConfig initialState exampleFrame.bytes)).1.bytesDropped = 0 ∧
      (ParsePackets defaultConfig
        (AppendBytes defaultConfig initialState exampleFrame.bytes)).1.badEndFrames = 0 ∧
      (ParsePackets defaultConfig
        (AppendBytes defaultConfig initialState exampleFrame.bytes)).1.crcMismatches = 0 ∧
      GetBufferedByteCount
        (ParsePackets defaultConfig
          (AppendBytes defaultConfig initialState exampleFrame.bytes)).2 = 0) :=
  ⟨by decide, rfl, C1_framing_roundtrip exampleFrame (by decide) initialState rfl⟩

/-- C2 counterexample: a corrupted candidate frame (bad END byte) whose second
byte is another `0xAA`, followed immediately by a valid frame. The single
`ParsePackets` call still recovers the valid frame, but `bad_end_frames` is
incremented by 2, not by exactly 1 as the claim states: the embedded `0xAA`
at offset 1 forms a second candidate whose end-marker check also fails. -/
theorem C2_resync_counterexample :
    ([170, 170, 0, 0, 0, 0, 0, 0, 0] : List Nat).getD 0 0 = StartByte ∧
    ([170, 170, 0, 0, 0, 0, 0, 0, 0] : List Nat).getD 6 0 ≤ MaxPayloadLen ∧
    ([170, 170, 0, 0, 0, 0, 0, 0, 0] : List Nat).length
      = MinFrameSize + ([170, 170, 0, 0, 0, 0, 0, 0, 0] : List Nat).getD 6 0 ∧
    ([170, 170, 0, 0, 0, 0, 0, 0, 0] : List Nat).getD
        (8 + ([170, 170, 0, 0, 0, 0, 0, 0, 0] : List Nat).getD 6 0) 0 ≠ EndByte ∧
    zeroFrame.Valid ∧
    (ParsePackets defaultConfig
        { initialState with
            Buffer := [170, 170, 0, 0, 0, 0, 0, 0, 0] ++ zeroFrame.bytes }).1.packets.length
      = 1 ∧
    (ParsePackets defaultConfig
        { initialState with
            Buffer := [170, 170, 0, 0, 0, 0, 0, 0, 0] ++ zeroFrame.bytes }).1.badEndFrames
      = 2 := by
  decide

/-- C2 (amended): resync precision holds under the additional hypothesis that
no byte of the corrupted candidate frame other than its first equals the
start marker `0xAA`. Then one `ParsePackets` call on the corrupted candidate
followed immediately by a valid frame recovers exactly that valid frame's
packet, and increments `bad_end_frames` by exactly 1 when the candidate's end
byte is wrong, respectively `crc_mismatches` by exactly 1 when its end byte
is right but its CRC is wrong. -/
theorem C2_resync_amended (c : List Nat) (f : FrameSpec) (hv : f.Valid)
    (hc0 : c.getD 0 0 = StartByte) (hcL : c.getD 6 0 ≤ MaxPayloadLen)
    (hclen : c.length = MinFrameSize + c.getD 6 0)
    (hno : ∀ t, 1 ≤ t → t < c.length → c.getD t 0 ≠ StartByte)
    (hbad : c.getD (8 + c.getD 6 0) 0 ≠ EndByte
      ∨ ComputeCrc c 0 (c.getD 6 0) ≠ c.getD (7 + c.getD 6 0) 0)
    (s : ParserState) (hs : s.Buffer = c ++ f.bytes) :
    (ParsePackets defaultConfig s).1.packets = [f.packet] ∧
    (c.getD (8 + c.getD 6 0) 0 ≠ EndByte →
      (ParsePackets defaultConfig s).1.badEndFrames = 1 ∧
      (ParsePackets defaultConfig s).1.crcMismatches = 0) ∧
    (c.getD (8 + c.getD 6 0) 0 = EndByte →
      (ParsePackets defaultConfig s).1.badEndFrames = 0 ∧
      (ParsePackets defaultConfig s).1.crcMismatches = 1) := by
  obtain ⟨-, -, -, -, -, hL, -⟩ := hv
  have hmax : 0 < defaultConfig.MaxPacketsPerCall := by show 0 < 200; omega
  by_cases hend : c.getD (8 + c.getD 6 0) 0 = EndByte
  · have hbadC : ComputeCrc c 0 (c.getD 6 0) ≠ c.getD (7 + c.getD 6 0) 0 := by
      rcases hbad with hb | hb
      · exact absurd hend hb
      · exact hb
    have hcore := corrupted_then_frame_badcrc defaultConfig.MaxPacketsPerCall hmax c f hL
      hc0 hcL hclen hno hend hbadC
    have h1 : (ParsePackets defaultConfig s).1 = ⟨[f.packet], c.length, 0, 1, []⟩ := by
      rw [ParsePackets_fst, hs]
      exact hcore
    rw [h1]
    exact ⟨rfl, fun hne => absurd hend hne, fun _ => ⟨rfl, rfl⟩⟩
  · have hcore := corrupted_then_frame_badend defaultConfig.MaxPacketsPerCall hmax c f hL
      hc0 hcL hclen hno hend
    have h1 : (ParsePackets defaultConfig s).1 = ⟨[f.packet], c.length, 1, 0, []⟩ := by
      rw [ParsePackets_fst, hs]
      exact hcore
    rw [h1]
    exact ⟨rfl, fun _ => ⟨rfl, rfl⟩, fun heq => absurd heq hend⟩

/-- C2 witness: a corrupted zero frame (end byte 0 instead of 0x55) with no
embedded start marker, followed by the example frame. -/
theorem C2_resync_amended_witness :
    zeroFrame.Valid ∧
    ([170, 0, 0, 0, 0, 0, 0, 0, 7] : List Nat).getD 0 0 = StartByte ∧
    ([170, 0, 0, 0, 0, 0, 0, 0, 7] : List Nat).getD 6 0 ≤ MaxPayloadLen ∧
    ([170, 0, 0, 0, 0, 0, 0, 0, 7] : List Nat).length
      = MinFrameSize + ([170, 0, 0, 0, 0, 0, 0, 0, 7] : List Nat).getD 6 0 ∧
    (∀ t, 1 ≤ t → t < ([170, 0, 0, 0, 0, 0, 0, 0, 7] : List Nat).length →
      ([170, 0, 0, 0, 0, 0, 0, 0, 7] : List Nat).getD t 0 ≠ StartByte) ∧
    ((ParsePackets defaultConfig
        { initialState with
            Buffer := [170, 0, 0, 0, 0, 0, 0, 0, 7] ++ zeroFrame.bytes }).1.packets
      = [zeroFrame.packet] ∧
    (([170, 0, 0, 0, 0, 0, 0, 0, 7] : List Nat).getD
          (8 + ([170, 0, 0, 0, 0, 0, 0, 0, 7] : List Nat).getD 6 0) 0 ≠ EndByte →
      (ParsePackets defaultConfig
        { initialState with
            Buffer := [170, 0, 0, 0, 0, 0, 0, 0, 7] ++ zeroFrame.bytes }).1.badEndFrames = 1 ∧
      (ParsePackets defaultConfig
        { initialState with
            Buffer := [170, 0, 0, 0, 0, 0, 0, 0, 7] ++ zeroFrame.bytes }).1.crcMismatches = 0) ∧
    (([170, 0, 0, 0, 0, 0, 0, 0, 7] : List Nat).getD
          (8 + ([170, 0, 0, 0, 0, 0, 0, 0, 7] : List Nat).getD 6 0) 0 = EndByte →
      (ParsePackets defaultConfig
        { initialState with
            Buffer := [170, 0, 0, 0, 0, 0, 0, 0, 7] ++ zeroFrame.bytes }).1.badEndFrames = 0 ∧
      (ParsePackets defaultConfig
        { initialState with
            Buffer := [170, 0, 0, 0, 0, 0, 0, 0, 7] ++ zeroFrame.bytes }).1.crcMismatches = 1)) :=
  ⟨by decide, by decide, by decide, by decide, by decide,
    C2_resync_amended [170, 0, 0, 0, 0, 0, 0, 0, 7] zeroFrame (by decide) (by decide)
      (by decide) (by decide) (by decide) (Or.inl (by decide)) _ rfl⟩

/-- C3 counterexample: with `MaxBufferBytes = 10` and `TrimToBytes = 64`, a
single `AppendBytes` of 100 bytes returns with 64 bytes still buffered —
more than `MaxBufferBytes` — because trimming keeps `TrimToBytes` bytes even
when that exceeds the configured maximum. -/
theorem C3_buffer_bound_counterexample :
    (⟨10, 64, 200⟩ : Config).MaxBufferBytes
        < (AppendBytes ⟨10, 64, 200⟩ initialState (List.replicate 100 7)).Buffer.length ∧
    (AppendBytes ⟨10, 64, 200⟩ initialState (List.replicate 100 7)).Buffer.length = 64 := by
  decide

theorem AppendBytes_over_trim (cfg : Config) (t : ParserState) (bs : List Nat)
    (hbs : bs ≠ []) (hover : cfg.MaxBufferBytes < (t.Buffer ++ bs).length)
    (h1 : 0 < cfg.TrimToBytes) (h2 : cfg.TrimToBytes < (t.Buffer ++ bs).length) :
    AppendBytes cfg t bs
      = { t with
          TotalBytesIn := t.TotalBytesIn + bs.length
          Buffer := (t.Buffer ++ bs).drop ((t.Buffer ++ bs).length - cfg.TrimToBytes)
          TotalBytesDropped :=
            t.TotalBytesDropped + ((t.Buffer ++ bs).length - cfg.TrimToBytes) } := by
  unfold AppendBytes EnforceBufferLimits
  rw [if_neg (by simpa using hbs)]
  rw [if_neg (show ¬ (({ t with
      TotalBytesIn := t.TotalBytesIn + bs.length,
      Buffer := t.Buffer ++ bs } : ParserState).Buffer.length ≤ cfg.MaxBufferBytes) from by
    show ¬ ((t.Buffer ++ bs).length ≤ cfg.MaxBufferBytes)
    omega)]
  rw [if_pos (show 0 < cfg.TrimToBytes ∧ cfg.TrimToBytes < ({ t with
      TotalBytesIn := t.TotalBytesIn + bs.length,
      Buffer := t.Buffer ++ bs } : ParserState).Buffer.length from ⟨h1, h2⟩)]

theorem AppendBytes_over_clear (cfg : Config) (t : ParserState) (bs : List Nat)
    (hbs : bs ≠ []) (hover : cfg.MaxBufferBytes < (t.Buffer ++ bs).length)
    (h12 : ¬ (0 < cfg.TrimToBytes ∧ cfg.TrimToBytes < (t.Buffer ++ bs).length)) :
    AppendBytes cfg t bs
      = { t with
          TotalBytesIn := t.TotalBytesIn + bs.length
          Buffer := []
          TotalBytesDropped := t.TotalBytesDropped + (t.Buffer ++ bs).length } := by
  unfold AppendBytes EnforceBufferLimits
  rw [if_neg (by simpa using hbs)]
  rw [if_neg (show ¬ (({ t with
      TotalBytesIn := t.TotalBytesIn + bs.length,
      Buffer := t.Buffer ++ bs } : ParserState).Buffer.length ≤ cfg.MaxBufferBytes) from by
    show ¬ ((t.Buffer ++ bs).length ≤ cfg.MaxBufferBytes)
    omega)]
  rw [if_neg (show ¬ (0 < cfg.TrimToBytes ∧ cfg.TrimToBytes < ({ t with
      TotalBytesIn := t.TotalBytesIn + bs.length,
      Buffer := t.Buffer ++ bs } : ParserState).Buffer.length) from h12)]

/-- C3 (amended): under the additional hypothesis
`TrimToBytes ≤ MaxBufferBytes` (which the defaults 64 ≤ 4096 satisfy), the
buffered byte count never exceeds `MaxBufferBytes` after any sequence of
`AppendBytes` / `ParsePackets` / `ResetBuffer` / `ResetStatistics` calls
starting within the bound; and whenever an `AppendBytes` pushes the buffer
over the limit it keeps exactly the last `TrimToBytes` bytes when
`0 < TrimToBytes <` current length, otherwise clears the buffer entirely,
adding the number of removed bytes to the cumulative `bytes_dropped`. -/
theorem C3_buffer_bound_amended (cfg : Config) (hTM : cfg.TrimToBytes ≤ cfg.MaxBufferBytes)
    (s : ParserState) (hs : s.Buffer.length ≤ cfg.MaxBufferBytes)
    (ops : List ParserOp) (t : ParserState) (bs : List Nat) (hbs : bs ≠ [])
    (hover : cfg.MaxBufferBytes < (t.Buffer ++ bs).length) :
    (runOps cfg s ops).Buffer.length ≤ cfg.MaxBufferBytes ∧
    (0 < cfg.TrimToBytes → cfg.TrimToBytes < (t.Buffer ++ bs).length →
      (AppendBytes cfg t bs).Buffer
          = (t.Buffer ++ bs).drop ((t.Buffer ++ bs).length - cfg.TrimToBytes) ∧
      (AppendBytes cfg t bs).Buffer.length = cfg.TrimToBytes ∧
      (AppendBytes cfg t bs).TotalBytesDropped
          = t.TotalBytesDropped + ((t.Buffer ++ bs).length - cfg.TrimToBytes)) ∧
    (¬ (0 < cfg.TrimToBytes ∧ cfg.TrimToBytes < (t.Buffer ++ bs).length) →
      (AppendBytes cfg t bs).Buffer = [] ∧
      (AppendBytes cfg t bs).TotalBytesDropped
          = t.TotalBytesDropped + (t.Buffer ++ bs).length) := by
  refine ⟨runOps_buffer_bound cfg hTM ops s hs, ?_, ?_⟩
  · intro h1 h2
    rw [AppendBytes_over_trim cfg t bs hbs hover h1 h2]
    refine ⟨rfl, ?_, rfl⟩
    show ((t.Buffer ++ bs).drop ((t.Buffer ++ bs).length - cfg.TrimToBytes)).length
        = cfg.TrimToBytes
    rw [List.length_drop]
    omega
  · intro h12
    rw [AppendBytes_over_clear cfg t bs hbs hover h12]
    exact ⟨rfl, rfl⟩

/-- C3 witness: default-like configuration `⟨8, 4, 3⟩` with `TrimToBytes = 4
≤ MaxBufferBytes = 8`, a two-call sequence, and an overfull append of ten
bytes. -/
theorem C3_buffer_bound_amended_witness :
    (⟨8, 4, 3⟩ : Config).TrimToBytes ≤ (⟨8, 4, 3⟩ : Config).MaxBufferBytes ∧
    initialState.Buffer.length ≤ (⟨8, 4, 3⟩ : Config).MaxBufferBytes ∧
    ([1, 2, 3, 4, 5, 6, 7, 8, 9, 10] : List Nat) ≠ [] ∧
    (⟨8, 4, 3⟩ : Config).MaxBufferBytes
        < (initialState.Buffer ++ [1, 2, 3, 4, 5, 6, 7, 8, 9, 10]).length ∧
    ((runOps ⟨8, 4, 3⟩ initialState
        [ParserOp.append [1, 2, 3, 4, 5, 6, 7, 8, 9, 10], ParserOp.parse]).Buffer.length
        ≤ (⟨8, 4, 3⟩ : Config).MaxBufferBytes ∧
    (0 < (⟨8, 4, 3⟩ : Config).TrimToBytes →
      (⟨8, 4, 3⟩ : Config).TrimToBytes
          < (initialState.Buffer ++ [1, 2, 3, 4, 5, 6, 7, 8, 9, 10]).length →
      (AppendBytes ⟨8, 4, 3⟩ initialState [1, 2, 3, 4, 5, 6, 7, 8, 9, 10]).Buffer
          = (initialState.Buffer ++ [1, 2, 3, 4, 5, 6, 7, 8, 9, 10]).drop
              ((initialState.Buffer ++ [1, 2, 3, 4, 5, 6, 7, 8, 9, 10]).length
                - (⟨8, 4, 3⟩ : Config).TrimToBytes) ∧
      (AppendBytes ⟨8, 4, 3⟩ initialState [1, 2, 3, 4, 5, 6, 7, 8, 9, 10]).Buffer.length
          = (⟨8, 4, 3⟩ : Config).TrimToBytes ∧
      (AppendBytes ⟨8, 4, 3⟩ initialState [1, 2, 3, 4, 5, 6, 7, 8, 9, 10]).TotalBytesDropped
          = initialState.TotalBytesDropped
            + ((initialState.Buffer ++ [1, 2, 3, 4, 5, 6, 7, 8, 9, 10]).length
                - (⟨8, 4, 3⟩ : Config).TrimToBytes)) ∧
    (¬ (0 < (⟨8, 4, 3⟩ : Config).TrimToBytes ∧ (⟨8, 4, 3⟩ : Config).TrimToBytes
          < (initialState.Buffer ++ [1, 2, 3, 4, 5, 6, 7, 8, 9, 10]).length) →
      (AppendBytes ⟨8, 4, 3⟩ initialState [1, 2, 3, 4, 5, 6, 7, 8, 9, 10]).Buffer = [] ∧
      (AppendBytes ⟨8, 4, 3⟩ initialState
          [1, 2, 3, 4, 5, 6, 7, 8, 9, 10]).TotalBytesDropped
          = initialState.TotalBytesDropped
            + (initialState.Buffer ++ [1, 2, 3, 4, 5, 6, 7, 8, 9, 10]).length)) :=
  ⟨by decide, by decide, by decide, by decide,
    C3_buffer_bound_amended ⟨8, 4, 3⟩ (by decide) initialState (by decide)
      [ParserOp.append [1, 2, 3, 4, 5, 6, 7, 8, 9, 10], ParserOp.parse]
      initialState [1, 2, 3, 4, 5, 6, 7, 8, 9, 10] (by decide) (by decide)⟩

/-- C4: Packet cap — when the buffer receives, in one `AppendBytes` call from
empty, the back-to-back bytes of more than `MaxPacketsPerCall` valid frames
(and they fit under `MaxBufferBytes`, so that the buffer actually contains
them), the next `ParsePackets` call returns exactly `MaxPacketsPerCall`
packets (the first `MaxPacketsPerCall` frames, in order), the bytes of all
remaining frames are still buffered afterwards, and a subsequent
`ParsePackets` call decodes from exactly those remaining frames. -/
theorem C4_packet_cap (cfg : Config) (fs : List FrameSpec) (hv : ∀ f ∈ fs, f.Valid)
    (hn : cfg.MaxPacketsPerCall < fs.length)
    (hfit : (joinFrames fs).length ≤ cfg.MaxBufferBytes)
    (s : ParserState) (hs : s.Buffer = []) :
    (ParsePackets cfg (AppendBytes cfg s (joinFrames fs))).1.packets
        = (fs.take cfg.MaxPacketsPerCall).map FrameSpec.packet ∧
    (ParsePackets cfg (AppendBytes cfg s (joinFrames fs))).1.packets.length
        = cfg.MaxPacketsPerCall ∧
    (ParsePackets cfg (AppendBytes cfg s (joinFrames fs))).2.Buffer
        = joinFrames (fs.drop cfg.MaxPacketsPerCall) ∧
    (ParsePackets cfg (ParsePackets cfg (AppendBytes cfg s (joinFrames fs))).2).1.packets
        = ((fs.drop cfg.MaxPacketsPerCall).take cfg.MaxPacketsPerCall).map
            FrameSpec.packet := by
  have hLs : ∀ f ∈ fs, f.Payload.length ≤ MaxPayloadLen := by
    intro f hf
    obtain ⟨-, -, -, -, -, hL, -⟩ := hv f hf
    exact hL
  have hjne : joinFrames fs ≠ [] := by
    cases fs with
    | nil => simp at hn
    | cons g gs =>
      rw [joinFrames_cons, FrameSpec.bytes_eq]
      simp
  have htb : (AppendBytes cfg s (joinFrames fs)).Buffer = joinFrames fs := by
    rw [AppendBytes_small cfg s (joinFrames fs) hjne (by rw [hs]; simpa using hfit)]
    show s.Buffer ++ joinFrames fs = joinFrames fs
    rw [hs, List.nil_append]
  have hcore := ParsePacketsCore_frames cfg.MaxPacketsPerCall fs hLs
  have hfst : (ParsePackets cfg (AppendBytes cfg s (joinFrames fs))).1
      = ⟨(fs.take cfg.MaxPacketsPerCall).map FrameSpec.packet, 0, 0, 0,
         joinFrames (fs.drop cfg.MaxPacketsPerCall)⟩ := by
    rw [ParsePackets_fst, htb]
    exact hcore
  have hsnd : (ParsePackets cfg (AppendBytes cfg s (joinFrames fs))).2.Buffer
      = joinFrames (fs.drop cfg.MaxPacketsPerCall) := by
    rw [ParsePackets_snd_Buffer, htb, hcore]
  refine ⟨by rw [hfst], ?_, hsnd, ?_⟩
  · rw [hfst]
    show ((fs.take cfg.MaxPacketsPerCall).map FrameSpec.packet).length = _
    rw [List.length_map, List.length_take]
    omega
  · rw [ParsePackets_fst, hsnd]
    rw [ParsePacketsCore_frames cfg.MaxPacketsPerCall (fs.drop cfg.MaxPacketsPerCall)
      (fun f hf => hLs f (List.drop_subset _ fs hf))]

/-- C4 witness: cap of 1 packet per call, two minimal frames delivered at
once; the first call decodes one frame, the second call the other. -/
theorem C4_packet_cap_witness :
    (∀ f ∈ [zeroFrame, zeroFrame], f.Valid) ∧
    (⟨4096, 64, 1⟩ : Config).MaxPacketsPerCall < ([zeroFrame, zeroFrame] : List FrameSpec).length ∧
    (joinFrames [zeroFrame, zeroFrame]).length ≤ (⟨4096, 64, 1⟩ : Config).MaxBufferBytes ∧
    ((ParsePackets ⟨4096, 64, 1⟩
        (AppendBytes ⟨4096, 64, 1⟩ initialState (joinFrames [zeroFrame, zeroFrame]))).1.packets
        = (([zeroFrame, zeroFrame] : List FrameSpec).take
            (⟨4096, 64, 1⟩ : Config).MaxPacketsPerCall).map FrameSpec.packet ∧
    (ParsePackets ⟨4096, 64, 1⟩
        (AppendBytes ⟨4096, 64, 1⟩ initialState (joinFrames [zeroFrame, zeroFrame]))).1.packets.length
        = (⟨4096, 64, 1⟩ : Config).MaxPacketsPerCall ∧
    (ParsePackets ⟨4096, 64, 1⟩
        (AppendBytes ⟨4096, 64, 1⟩ initialState (joinFrames [zeroFrame, zeroFrame]))).2.Buffer
        = joinFrames (([zeroFrame, zeroFrame] : List FrameSpec).drop
            (⟨4096, 64, 1⟩ : Config).MaxPacketsPerCall) ∧
    (ParsePackets ⟨4096, 64, 1⟩
        (ParsePackets ⟨4096, 64, 1⟩
          (AppendBytes ⟨4096, 64, 1⟩ initialState (joinFrames [zeroFrame, zeroFrame]))).2).1.packets
        = ((([zeroFrame, zeroFrame] : List FrameSpec).drop
              (⟨4096, 64, 1⟩ : Config).MaxPacketsPerCall).take
            (⟨4096, 64, 1⟩ : Config).MaxPacketsPerCall).map FrameSpec.packet) :=
  ⟨by decide, by decide, by decide,
    C4_packet_cap ⟨4096, 64, 1⟩ [zeroFrame, zeroFrame] (by decide) (by decide) (by decide)
      initialState rfl⟩

/-- C5 counterexample: with `MaxPacketsPerCall = 1` and two complete valid
frames buffered, the first `ParsePackets` call stops at the cap, so a second
call with no `AppendBytes` in between decodes one more packet rather than
zero. -/
theorem C5_idempotence_counterexample :
    ((ParsePackets ⟨4096, 64, 1⟩
        { initialState with Buffer := zeroFrame.bytes ++ zeroFrame.bytes }).1).packets.length
      = 1 ∧
    ((ParsePackets ⟨4096, 64, 1⟩
        ((ParsePackets ⟨4096, 64, 1⟩
          { initialState with
              Buffer := zeroFrame.bytes ++ zeroFrame.bytes }).2)).1).packets.length = 1 := by
  decide

/-- C5 (amended): appending an empty byte array changes nothing, and —
provided the first `ParsePackets` call returned fewer packets than
`MaxPacketsPerCall` (i.e. it was not stopped early by the per-call cap) — a
second `ParsePackets` call with no `AppendBytes` in between returns zero
packets, zero drop counts, and leaves the entire parser state (buffer and
all cumulative counters) unchanged. -/
theorem C5_idempotence_amended (cfg : Config) (s : ParserState)
    (h : (ParsePackets cfg s).1.packets.length < cfg.MaxPacketsPerCall) :
    (∀ t : ParserState, AppendBytes cfg t [] = t) ∧
    ParsePackets cfg (ParsePackets cfg s).2
      = (⟨[], 0, 0, 0, (ParsePackets cfg s).2.Buffer⟩, (ParsePackets cfg s).2) := by
  refine ⟨fun t => AppendBytes_nil cfg t, ?_⟩
  have hw : WaitingBuffer (ParsePackets cfg s).2.Buffer := by
    have hor := parseLoopF_waiting_or_cap cfg.MaxPacketsPerCall s.Buffer
      (s.Buffer.length + 1) 0 0 [] 0 0 0 (by omega)
    rcases hor with hw | hcap
    · rw [ParsePackets_snd_Buffer]
      exact hw
    · exfalso
      rw [ParsePackets_fst] at h
      have h2 : (ParsePacketsCore cfg.MaxPacketsPerCall s.Buffer).packets.length
          = 0 + (cfg.MaxPacketsPerCall - 0) := hcap
      omega
  exact ParsePackets_state_of_waiting cfg (ParsePackets cfg s).2 hw

/-- C5 witness: a fresh parser under the default configuration. -/
theorem C5_idempotence_amended_witness :
    (ParsePackets defaultConfig initialState).1.packets.length
        < defaultConfig.MaxPacketsPerCall ∧
    ((∀ t : ParserState, AppendBytes defaultConfig t [] = t) ∧
      ParsePackets defaultConfig (ParsePackets defaultConfig initialState).2
        = (⟨[], 0, 0, 0, (ParsePackets defaultConfig initialState).2.Buffer⟩,
           (ParsePackets defaultConfig initialState).2)) :=
  ⟨by decide, C5_idempotence_amended defaultConfig initialState (by decide)⟩

/-- C6: All-junk input — for any byte sequence with no `0xAA` anywhere,
appending it to a fresh parser and calling `ParsePackets` yields zero
packets, cumulative `bytes_dropped` equal to the input length, and an empty
buffer; when the input also fits under `MaxBufferBytes` (so eviction cannot
pre-drop part of it), the call's own `OutBytesDropped` equals the input
length as well. A positive `MaxPacketsPerCall` (true of the default 200) is
assumed so that the scan actually runs. -/
theorem C6_all_junk (cfg : Config) (hmax : 0 < cfg.MaxPacketsPerCall) (ns : List Nat)
    (h : ∀ b ∈ ns, b ≠ StartByte) :
    (ParsePackets cfg (AppendBytes cfg initialState ns)).1.packets = [] ∧
    (ParsePackets cfg (AppendBytes cfg initialState ns)).2.TotalBytesDropped = ns.length ∧
    (ParsePackets cfg (AppendBytes cfg initialState ns)).2.Buffer = [] ∧
    (ns.length ≤ cfg.MaxBufferBytes →
      (ParsePackets cfg (AppendBytes cfg initialState ns)).1.bytesDropped = ns.length) := by
  by_cases hns : ns = []
  · subst hns
    rw [AppendBytes_nil]
    have hw : WaitingBuffer initialState.Buffer := Or.inl rfl
    rw [ParsePackets_state_of_waiting cfg initialState hw]
    exact ⟨rfl, rfl, rfl, fun _ => rfl⟩
  · have hnz : ¬ (ns.length = 0) := by simpa using hns
    have happ : AppendBytes cfg initialState ns
        = (EnforceBufferLimits cfg
            { initialState with TotalBytesIn := 0 + ns.length, Buffer := [] ++ ns }).1 := by
      unfold AppendBytes
      rw [if_neg hnz]
      rfl
    obtain ⟨k, hk, hbuf, hdrop, -, -, -, -⟩ := EnforceBufferLimits_suffix cfg
      { initialState with TotalBytesIn := 0 + ns.length, Buffer := [] ++ ns }
    have hbuf1 : (AppendBytes cfg initialState ns).Buffer = ns.drop k := by
      rw [happ, hbuf]
      show ([] ++ ns).drop k = ns.drop k
      rw [List.nil_append]
    have hdrop1 : (AppendBytes cfg initialState ns).TotalBytesDropped = k := by
      rw [happ, hdrop]
      show 0 + k = k
      omega
    have hk2 : k ≤ ns.length := by simpa using hk
    have hjunk2 : ∀ x ∈ ns.drop k, x ≠ StartByte := fun x hx =>
      h x (List.drop_subset _ _ hx)
    have hcore := ParsePacketsCore_junk cfg.MaxPacketsPerCall (ns.drop k) hmax hjunk2
    have hr := ParsePackets_of_core cfg (AppendBytes cfg initialState ns)
      ⟨[], (ns.drop k).length, 0, 0, []⟩ (by rw [hbuf1]; exact hcore)
    rw [hr]
    refine ⟨rfl, ?_, rfl, ?_⟩
    · show (AppendBytes cfg initialState ns).TotalBytesDropped + (ns.drop k).length
          = ns.length
      rw [hdrop1, List.length_drop]
      omega
    · intro hle
      have hEn : EnforceBufferLimits cfg
          { initialState with TotalBytesIn := 0 + ns.length, Buffer := [] ++ ns }
          = ({ initialState with TotalBytesIn := 0 + ns.length, Buffer := [] ++ ns }, 0) :=
        EnforceBufferLimits_le _ _ (by
          show ([] ++ ns).length ≤ cfg.MaxBufferBytes
          rw [List.nil_append]
          exact hle)
      have hbuf2 : (AppendBytes cfg initialState ns).Buffer = ns := by
        rw [happ, hEn]
        show [] ++ ns = ns
        rw [List.nil_append]
      have hlen : (ns.drop k).length = ns.length := by
        rw [← hbuf1, hbuf2]
      exact hlen

/-- C6 witness: a short junk run containing no `0xAA`, under the default
configuration. -/
theorem C6_all_junk_witness :
    0 < defaultConfig.MaxPacketsPerCall ∧
    (∀ b ∈ ([18, 52, 86] : List Nat), b ≠ StartByte) ∧
    ((ParsePackets defaultConfig (AppendBytes defaultConfig initialState [18, 52, 86])).1.packets
        = [] ∧
    (ParsePackets defaultConfig
        (AppendBytes defaultConfig initialState [18, 52, 86])).2.TotalBytesDropped
        = ([18, 52, 86] : List Nat).length ∧
    (ParsePackets defaultConfig
        (AppendBytes defaultConfig initialState [18, 52, 86])).2.Buffer = [] ∧
    (([18, 52, 86] : List Nat).length ≤ defaultConfig.MaxBufferBytes →
      (ParsePackets defaultConfig
        (AppendBytes defaultConfig initialState [18, 52, 86])).1.bytesDropped
        = ([18, 52, 86] : List Nat).length)) :=
  ⟨by decide, by decide, C6_all_junk defaultConfig (by decide) [18, 52, 86] (by decide)⟩

/-- C7: Split-frame reassembly — a valid frame delivered across any number of
nonempty consecutive chunks, with `ParsePackets` called after each
`AppendBytes`, behaves as if delivered whole: every call before the last
returns zero packets and zero drop counts (leaving the partial frame
buffered), and the call after the final chunk returns exactly the frame's
single decoded packet with an empty buffer left behind. -/
theorem C7_split_reassembly (f : FrameSpec) (hv : f.Valid) (cs : List (List Nat))
    (hjoin : cs.flatten = f.bytes) (hne : ∀ chunk ∈ cs, chunk ≠ [])
    (s : ParserState) (hs : s.Buffer = []) :
    (∀ pre chunk post, cs = pre ++ chunk :: post → post ≠ [] →
      (ParsePackets defaultConfig
        (AppendBytes defaultConfig (runChunks defaultConfig s pre) chunk)).1
        = ⟨[], 0, 0, 0, pre.flatten ++ chunk⟩) ∧
    (∀ pre chunk, cs = pre ++ [chunk] →
      (ParsePackets defaultConfig
        (AppendBytes defaultConfig (runChunks defaultConfig s pre) chunk)).1
        = ⟨[f.packet], 0, 0, 0, []⟩ ∧
      (ParsePackets defaultConfig
        (AppendBytes defaultConfig (runChunks defaultConfig s pre) chunk)).2.Buffer
        = []) := by
  obtain ⟨-, -, -, -, -, hL, -⟩ := hv
  have hMPL : MaxPayloadLen = 32 := rfl
  have hMFS : MinFrameSize = 9 := rfl
  have hfit : MinFrameSize + f.Payload.length ≤ defaultConfig.MaxBufferBytes := by
    show MinFrameSize + f.Payload.length ≤ 4096
    omega
  have hbl : f.bytes.length = MinFrameSize + f.Payload.length := f.bytes_length
  constructor
  · intro pre chunk post hcs hpost
    have hpostne : post.flatten ≠ [] := by
      cases post with
      | nil => exact absurd rfl hpost
      | cons q qs =>
        have hq : q ≠ [] := hne q (by rw [hcs]; simp)
        simp only [List.flatten_cons]
        intro he
        rcases List.append_eq_nil.mp he with ⟨h1, -⟩
        exact hq h1
    have hflat : pre.flatten ++ (chunk ++ post.flatten) = f.bytes := by
      rw [← hjoin, hcs]
      simp
    have hrun : (runChunks defaultConfig s pre).Buffer = s.Buffer ++ pre.flatten := by
      apply runChunks_prefix_buffer defaultConfig f hL hfit pre s (chunk ++ post.flatten)
      · rw [hs, List.nil_append]
        exact hflat
      · intro he
        rcases List.append_eq_nil.mp he with ⟨h1, -⟩
        exact (hne chunk (by rw [hcs]; simp)) h1
    have hstep := stepChunk_prefix defaultConfig f hL hfit
      (runChunks defaultConfig s pre) chunk post.flatten
      (by rw [hrun, hs, List.nil_append, List.append_assoc]; exact hflat) hpostne
    rw [hstep.1, hrun, hs, List.nil_append]
  · intro pre chunk hcs
    have hflat : pre.flatten ++ chunk = f.bytes := by
      rw [← hjoin, hcs]
      simp
    have hchne : chunk ≠ [] := hne chunk (by rw [hcs]; simp)
    have hrun : (runChunks defaultConfig s pre).Buffer = s.Buffer ++ pre.flatten := by
      apply runChunks_prefix_buffer defaultConfig f hL hfit pre s chunk
      · rw [hs, List.nil_append]
        exact hflat
      · exact hchne
    have hlen2 : pre.flatten.length + chunk.length = f.bytes.length := by
      rw [← hflat, List.length_append]
    have hbuf : (AppendBytes defaultConfig (runChunks defaultConfig s pre) chunk).Buffer
        = f.bytes := by
      rw [AppendBytes_small defaultConfig _ chunk hchne (by
        rw [hrun, hs, List.nil_append]
        show pre.flatten.length + chunk.length ≤ 4096
        omega)]
      show (runChunks defaultConfig s pre).Buffer ++ chunk = f.bytes
      rw [hrun, hs, List.nil_append]
      exact hflat
    have hjoin1 : joinFrames [f] = f.bytes := by simp [joinFrames]
    have hcore := ParsePacketsCore_frames defaultConfig.MaxPacketsPerCall [f]
      (by intro g hg; rw [List.mem_singleton.mp hg]; exact hL)
    rw [hjoin1] at hcore
    have htake : [f].take defaultConfig.MaxPacketsPerCall = [f] :=
      List.take_of_length_le (by show 1 ≤ 200; omega)
    have hdrop : [f].drop defaultConfig.MaxPacketsPerCall = ([] : List FrameSpec) :=
      List.drop_eq_nil_of_le (by show 1 ≤ 200; omega)
    rw [htake, hdrop] at hcore
    simp only [List.map_cons, List.map_nil, joinFrames_nil] at hcore
    constructor
    · rw [ParsePackets_fst, hbuf]
      exact hcore
    · rw [ParsePackets_snd_Buffer, hbuf, hcore]

/-- C7 witness: the example frame delivered in three chunks, split mid-header
and mid-payload. -/
theorem C7_split_reassembly_witness :
    exampleFrame.Valid ∧
    ([[170, 1, 2], [3, 2, 1, 2, 171], [205, 103, 85]] : List (List Nat)).flatten
        = exampleFrame.bytes ∧
    (∀ chunk ∈ ([[170, 1, 2], [3, 2, 1, 2, 171], [205, 103, 85]] : List (List Nat)),
      chunk ≠ []) ∧
    ((∀ pre chunk post,
      ([[170, 1, 2], [3, 2, 1, 2, 171], [205, 103, 85]] : List (List Nat))
          = pre ++ chunk :: post → post ≠ [] →
      (ParsePackets defaultConfig
        (AppendBytes defaultConfig (runChunks defaultConfig initialState pre) chunk)).1
        = ⟨[], 0, 0, 0, pre.flatten ++ chunk⟩) ∧
    (∀ pre chunk,
      ([[170, 1, 2], [3, 2, 1, 2, 171], [205, 103, 85]] : List (List Nat)) = pre ++ [chunk] →
      (ParsePackets defaultConfig
        (AppendBytes defaultConfig (runChunks defaultConfig initialState pre) chunk)).1
        = ⟨[exampleFrame.packet], 0, 0, 0, []⟩ ∧
      (ParsePackets defaultConfig
        (AppendBytes defaultConfig (runChunks defaultConfig initialState pre) chunk)).2.Buffer
        = [])) :=
  ⟨by decide, by decide, by decide,
    C7_split_reassembly exampleFrame (by decide)
      [[170, 1, 2], [3, 2, 1, 2, 171], [205, 103, 85]] (by decide) (by decide)
      initialState rfl⟩

/-- C8: Totality and safety of `ParsePackets` — running the bounds-checked
variant of the parse loop (in which every buffer read of the start-byte scan
aside, which walks the list structurally, is guarded: the LEN read, the
end-byte check, the CRC range, and the payload copy each verify their
indices) always succeeds with `some`, returning exactly the result of the
unchecked parser, for every buffer contents and every configuration. Hence
no read is out of bounds, nothing fails, and empty results are ordinary
values. -/
theorem C8_parse_totality (cfg : Config) (s : ParserState) :
    ParsePacketsCoreChecked cfg.MaxPacketsPerCall s.Buffer
      = some ((ParsePackets cfg s).1) := by
  rw [ParsePackets_fst]
  exact parseLoopChecked_eq cfg.MaxPacketsPerCall s.Buffer (s.Buffer.length + 1) 0 0 [] 0 0 0

/-- C9: Post-parse buffer alignment — whenever `ParsePackets` returns fewer
packets than `MaxPacketsPerCall` (so it was not stopped early by the cap),
the buffer it leaves behind is either empty or begins with the start byte
`0xAA`; leading junk is never retained across calls. -/
theorem C9_post_parse_alignment (cfg : Config) (s : ParserState)
    (h : (ParsePackets cfg s).1.packets.length < cfg.MaxPacketsPerCall) :
    (ParsePackets cfg s).2.Buffer = []
      ∨ (ParsePackets cfg s).2.Buffer.getD 0 0 = StartByte := by
  have hor := parseLoopF_waiting_or_cap cfg.MaxPacketsPerCall s.Buffer
    (s.Buffer.length + 1) 0 0 [] 0 0 0 (by omega)
  rcases hor with hw | hcap
  · rcases hw with he | ⟨hh, -⟩
    · left
      rw [ParsePackets_snd_Buffer]
      exact he
    · right
      rw [ParsePackets_snd_Buffer]
      exact hh
  · exfalso
    rw [ParsePackets_fst] at h
    have h2 : (ParsePacketsCore cfg.MaxPacketsPerCall s.Buffer).packets.length
        = 0 + (cfg.MaxPacketsPerCall - 0) := hcap
    omega

/-- C9 witness: junk-then-partial-frame input under the default
configuration; the parse drops the junk and leaves the buffer aligned on the
retained `0xAA`. -/
theorem C9_post_parse_alignment_witness :
    (ParsePackets defaultConfig
        { initialState with Buffer := [1, 2, 170, 5] }).1.packets.length
        < defaultConfig.MaxPacketsPerCall ∧
    ((ParsePackets defaultConfig
        { initialState with Buffer := [1, 2, 170, 5] }).2.Buffer = []
      ∨ (ParsePackets defaultConfig
        { initialState with Buffer := [1, 2, 170, 5] }).2.Buffer.getD 0 0 = StartByte) :=
  ⟨by decide,
    C9_post_parse_alignment defaultConfig
      { initialState with Buffer := [1, 2, 170, 5] } (by decide)⟩

/-- C10: Output packet well-formedness — when the buffer holds bytes (values
`< 256`, as `uint8` contents always are), every packet a `ParsePackets` call
returns has `Len ≤ 32`, a payload of exactly `Len` bytes, a sequence number
in `[0, 65535]`, and was decoded by `DecodePacketAt` from an offset of the
buffer whose frame-sized span passed the end-marker check (byte `8 + Len`
equals `0x55`) and the CRC check (stored CRC equals the XOR of the 6 header
bytes and the payload). -/
theorem C10_packet_wellformed (cfg : Config) (s : ParserState)
    (hbytes : ∀ b ∈ s.Buffer, b < 256) :
    ∀ p ∈ (ParsePackets cfg s).1.packets, PacketWellFormed s.Buffer p := by
  intro p hp
  rw [ParsePackets_fst] at hp
  exact parseLoopF_wellFormed cfg.MaxPacketsPerCall s.Buffer hbytes (s.Buffer.length + 1)
    0 0 [] 0 0 0 (by intro q hq; simp at hq) p hp

/-- C10 witness: the packet decoded from the example frame. -/
theorem C10_packet_wellformed_witness :
    (∀ b ∈ ({ initialState with Buffer := exampleFrame.bytes } : ParserState).Buffer,
      b < 256) ∧
    exampleFrame.packet
        ∈ (ParsePackets defaultConfig
            { initialState with Buffer := exampleFrame.bytes }).1.packets ∧
    PacketWellFormed ({ initialState with Buffer := exampleFrame.bytes } : ParserState).Buffer
      exampleFrame.packet :=
  ⟨by decide, by decide,
    C10_packet_wellformed defaultConfig { initialState with Buffer := exampleFrame.bytes }
      (by decide) exampleFrame.packet (by decide)⟩

end ByteStream
